import Mathlib

/-!
# Verification of the `EntityLoader` population subsystem

Shallow embedding of `packages/core/src/entity/EntityLoader.ts` (mikro-orm 5.3.1).

Modelling conventions, used throughout:

* JS objects with optional keys become structures/inductives with `Option` fields;
  a JS `undefined` is `none`.
* A JS crash (`!` non-null assertion failing, property access on `undefined`) is
  modelled by the enclosing function returning `none` (`Option`/`Except` failure).
* Machine state that the loader mutates in place (entity relationship slots,
  the `options` bag) is threaded explicitly: functions return the updated values.
* The identity map guarantees one live instance per primary key, so entity object
  identity (`===`) is modelled as primary-key equality.
* External collaborators (`em.find`, `driver.loadFromPivotTable`, the entity
  factory, `em.applyFilters`) are oracle parameters bundled in `LoaderEnv`; each
  batched fetch the loader issues is recorded as a `FetchCall` event in the
  returned trace, in issue order.
* Plumbing that no claim touches is elided and noted where it occurs:
  the `fields` projection (`buildFields`), `orderBy` propagation, lock modes,
  serialization-context caching and the `populated()` flag marking.
* Unbounded recursions of the source are given explicit fuel that dominates the
  source's own termination argument (the visited set for the eager lookup, tree
  depth for the merge); the fuel-exhaustion branch returns a failure value and is
  unreachable at the canonical fuel, which is part of what is proved.
-/

/-- Relationship kinds, mirroring `ReferenceType` in `enums.ts`. -/
inductive ReferenceType where
  | scalar
  | oneToOne
  | oneToMany
  | manyToOne
  | manyToMany
  | embedded
deriving DecidableEq, Repr

/-- Load strategies, mirroring `LoadStrategy`. -/
inductive LoadStrategy where
  | selectIn
  | joined
deriving DecidableEq, Repr

instance : BEq ReferenceType := ⟨fun a b => decide (a = b)⟩
instance : BEq LoadStrategy := ⟨fun a b => decide (a = b)⟩

/-- `x ?? y` / `x ??= y` of JS on option values. -/
def nvl {α : Type} : Option α → Option α → Option α
  | some x, _ => some x
  | none, b => b

/-- One property of an entity's metadata (`EntityProperty` in `typings.ts`),
restricted to the fields the loader reads. -/
structure EntityProperty where
  name : String
  reference : ReferenceType
  /-- target entity type name (`prop.type`). -/
  type : String
  owner : Bool := false
  mappedBy : String := ""
  eager : Bool := false
  lazy : Bool := false
  strategy : Option LoadStrategy := none
  /-- `prop.embedded`: `[parentEmbeddableProp, nameInsideEmbeddable]`. -/
  embedded : Option (String × String) := none
  mapToPk : Bool := false
  customType : Bool := false
deriving DecidableEq, Repr

/-- Per-type metadata descriptor (`EntityMetadata`). -/
structure EntityMetadata where
  name : String
  primaryKeys : List String := ["id"]
  properties : List EntityProperty := []
deriving DecidableEq, Repr

/-- `meta.properties[name]`: JS dictionary access, first declaration wins. -/
def EntityMetadata.findProp (meta : EntityMetadata) (nm : String) : Option EntityProperty :=
  meta.properties.find? (fun p => p.name == nm)

/-- Modelled from the spec: `meta.relations` (getter of `EntityMetadata`, not under
`src/`) — the declared relations of the type, i.e. the properties whose kind is a
relationship (spec §2.1: "maps entity names to relationship definitions"). -/
def EntityMetadata.relations (meta : EntityMetadata) : List EntityProperty :=
  meta.properties.filter (fun p =>
    p.reference == .oneToOne || p.reference == .oneToMany ||
    p.reference == .manyToOne || p.reference == .manyToMany)

/-- The metadata registry (`MetadataStorage`), read-only during population. -/
abbrev MetadataStorage := List EntityMetadata

/-- `this.metadata.find(entityName)`. -/
def MetadataStorage.find (registry : MetadataStorage) (nm : String) : Option EntityMetadata :=
  registry.find? (fun m => m.name == nm)

/-- String join with a separator, written out so it reduces definitionally. -/
def joinSep (sep : String) : List String → String
  | [] => ""
  | [x] => x
  | x :: y :: xs => x ++ sep ++ joinSep sep (y :: xs)

/-- Modelled from the spec: `Utils.getPrimaryKeyHash` (utility, not under `src/`) —
the composite-key lookup name obtained by joining the primary key fields. -/
def getPrimaryKeyHash (pks : List String) : String :=
  joinSep "~~~" pks

/-- Splitting a string at `.` characters, written out over the character list so
it reduces definitionally (behaves as `"a.b.c".split('.')` of JS). -/
def splitOnDotAux : List Char → List Char → List String
  | [], acc => [String.mk acc.reverse]
  | c :: cs, acc =>
    if c = '.' then String.mk acc.reverse :: splitOnDotAux cs []
    else splitOnDotAux cs (c :: acc)

/-- `field.split('.')`. -/
def splitOnDot (s : String) : List String :=
  splitOnDotAux s.data []

/-- Helper for `uniqueList`: keep elements not yet seen. -/
def uniqueAux {α : Type} [DecidableEq α] (seen : List α) : List α → List α
  | [] => []
  | x :: xs => if x ∈ seen then uniqueAux seen xs else x :: uniqueAux (x :: seen) xs

/-- First-occurrence deduplication, mirroring `Utils.unique`. -/
def uniqueList {α : Type} [DecidableEq α] (l : List α) : List α :=
  uniqueAux [] l

/-! ## Conditions

Abstract filter expressions (spec §3 "Condition"): JS condition objects are
association lists from keys to values; values are literals, arrays of literals
(`$in` payloads), nested plain objects, or arrays of condition objects
(`$and`/`$or` payloads). -/

/-- A JS value stored under one key of a condition object. -/
inductive QVal where
  | lit (n : Int)
  | arrN (ids : List Int)
  | obj (o : List (String × QVal))
  | arrC (cs : List (List (String × QVal)))

/-- A JS condition object. -/
abbrev CondObj := List (String × QVal)

/-- Result type of `mergePrimaryCondition`: either a plain object or `{$and: [...]}`. -/
inductive Cond where
  | obj (o : CondObj)
  | andC (cs : List Cond)

/-- First-binding lookup in a condition object (`where[key]`). -/
def condLookup (o : CondObj) (k : String) : Option QVal :=
  (o.find? (fun kv => kv.fst == k)).map (·.snd)

/-- JS truthiness of a condition value (`0` is falsy, objects and arrays truthy). -/
def QVal.truthy : QVal → Bool
  | .lit n => n != 0
  | _ => true

/-- JS object spread `{ ...a, ...b }`: keys of `b` override same-named keys of `a`
in place, new keys of `b` are appended. -/
def spreadMerge (a b : CondObj) : CondObj :=
  (a.map (fun kv => (kv.fst, (condLookup b kv.fst).getD kv.snd)))
    ++ b.filter (fun kv => (condLookup a kv.fst).isNone)

/-- Modelled from the spec: `Utils.isOperator(key, includeGroupOperators)`
(utility, not under `src/`) — conditions are "composed of equality/`$in`/`$and`/
`$or` combinators" (spec §3); group combinators are `$and`/`$or`/`$not`. -/
def isOperator (k : String) (includeGroup : Bool) : Bool :=
  (k.data.head? == some '$') &&
    (includeGroup || (k != "$and" && k != "$or" && k != "$not"))

/-- Modelled from the spec: `QueryHelper.processWhere` (not under `src/`) only
rewrites custom scalar types into their storage representation; at this level of
abstraction it is the identity on the condition. -/
def processWhere (c : CondObj) (_convertCustomTypes : Bool) : CondObj := c

/-- `EntityLoader.mergePrimaryCondition` (lines 275–281): conjoin the derived
"key ∈ batch" condition with the caller-supplied `options.where`. -/
def mergePrimaryCondition (ids : List Int) (pk : String) (whereO : CondObj)
    (convertCustomTypes : Bool) : Cond :=
  let cond1 : CondObj := processWhere [(pk, .obj [("$in", .arrN ids)])] (!convertCustomTypes)
  match condLookup whereO pk with
  | some v =>
      if v.truthy then
        .andC [.obj cond1, .obj whereO]
      else
        .obj (spreadMerge cond1 whereO)
  | none => .obj (spreadMerge cond1 whereO)

/-! ## Populate specs

`PopulateOptions<T>` from `typings.ts`: a tree node
`{ field, strategy?, children?, all? }` (spec §3 "PopulateSpec"). -/

/-- A populate spec node. `children = none` models an absent `children` key
(distinct from an empty array, which JS code distinguishes). -/
inductive PopulateOptions where
  | mk (field : String) (strategy : Option LoadStrategy)
       (children : Option (List PopulateOptions)) (all : Option Bool)

def PopulateOptions.field : PopulateOptions → String
  | .mk f _ _ _ => f

def PopulateOptions.strategy : PopulateOptions → Option LoadStrategy
  | .mk _ s _ _ => s

def PopulateOptions.children : PopulateOptions → Option (List PopulateOptions)
  | .mk _ _ c _ => c

def PopulateOptions.all : PopulateOptions → Option Bool
  | .mk _ _ _ a => a

/-- A bare populate node for a field name, as produced from a string request. -/
def popNode (f : String) : PopulateOptions := .mk f none none none

mutual

/-- Nesting depth of a populate node (1 for a leaf). -/
def popDepth : PopulateOptions → Nat
  | .mk _ _ none _ => 1
  | .mk _ _ (some l) _ => 1 + popDepthList l

/-- Maximum nesting depth over a list of populate nodes. -/
def popDepthList : List PopulateOptions → Nat
  | [] => 0
  | p :: ps => max (popDepth p) (popDepthList ps)

end

/-- The `populate` argument of `EntityLoader.populate` / `normalizePopulate`:
either a boolean or a list of spec nodes. -/
inductive PopReq where
  | bool (b : Bool)
  | list (l : List PopulateOptions)

/-- `EntityLoader.getRelationName` (lines 503–509): the dotted path of a relation
that lives inside an embeddable.  The source recurses through
`meta.properties[prop.embedded[0]]`; the recursion depth is bounded by the number
of declared properties, which is the fuel used here; a missing parent property or
exhausted fuel models the JS crash as `none`. -/
def getRelationNameAux (meta : EntityMetadata) : Nat → EntityProperty → Option String
  | 0, _ => none
  | fuel + 1, prop =>
    match prop.embedded with
    | none => some prop.name
    | some (parent, sub) => do
        let pp ← meta.findProp parent
        let base ← getRelationNameAux meta fuel pp
        some (base ++ "." ++ sub)

/-- `getRelationName` at its canonical fuel. -/
def getRelationName (meta : EntityMetadata) (prop : EntityProperty) : Option String :=
  getRelationNameAux meta (meta.properties.length + 1) prop

/-- Option-valued traversal of a list (the `mapM` of the embedding, written out
so it reduces definitionally). -/
def optMapM {α β : Type} (f : α → Option β) : List α → Option (List β)
  | [] => some []
  | x :: xs => do
      let y ← f x
      let ys ← optMapM f xs
      some (y :: ys)

/-- `EntityLoader.lookupAllRelationships` (lines 486–501): one spec per declared
relation, forced to `SELECT_IN`, `all: true`, no children. -/
def lookupAllRelationships (registry : MetadataStorage) (entityName : String) :
    Option (List PopulateOptions) := do
  let meta ← registry.find entityName
  optMapM (fun prop => do
    let f ← getRelationName meta prop
    some (PopulateOptions.mk f (some .selectIn) none (some true))) meta.relations

/-- Registry names not yet on the visited path: the measure that bounds the
eager-lookup recursion (spec §4.1: "visited-set of entity type names per path"). -/
def countNotVisited (names : List String) (visited : List String) : Nat :=
  (names.filter (fun n => !(visited.contains n))).length

/-- One iteration of the `forEach` in `lookupEagerLoadedRelationships`
(lines 521–537), parameterised by the recursive call (supplied with one level
less fuel by `lookupEagerAux`). -/
def lookupEagerStep
    (recur : String → List PopulateOptions → String → Option (List PopulateOptions))
    (meta : EntityMetadata) (populate : List PopulateOptions)
    (strategy : Option LoadStrategy) (pre : String)
    (ret : List PopulateOptions) (prop : EntityProperty) :
    Option (List PopulateOptions) := do
  let field ← getRelationName meta prop
  let prefixed := if pre == "" then field else pre ++ "." ++ field
  let nestedPopulate :=
    ((populate.find? (fun p => p.field == prop.name)).bind (·.children)).getD []
  let nested ← recur prop.type nestedPopulate prefixed
  if nested.length > 0 then
    pure (ret ++ nested)
  else
    pure (ret ++ [PopulateOptions.mk prefixed (nvl strategy prop.strategy) none none])

/-- `EntityLoader.lookupEagerLoadedRelationships` (lines 511–540), with explicit
fuel.  Each recursive call extends the visited path by one registry name, so the
recursion depth is bounded by `countNotVisited` (the source's visited-set
termination argument); fuel exhaustion returns `none` and is unreachable at the
canonical fuel. -/
def lookupEagerAux (registry : MetadataStorage) :
    Nat → String → List PopulateOptions → Option LoadStrategy → String → List String →
    Option (List PopulateOptions)
  | 0, _, _, _, _, _ => none
  | fuel + 1, entityName, populate, strategy, pre, visited =>
    if visited.contains entityName then
      some populate
    else
      match registry.find entityName with
      | none => some populate
      | some meta =>
        let visited' := visited ++ [entityName]
        let init : List PopulateOptions := if pre == "" then populate else []
        let rel := meta.relations.filter (fun prop =>
          prop.eager || populate.any (fun p => p.field == prop.name))
        rel.foldlM
          (lookupEagerStep
            (fun ty pops pre' => lookupEagerAux registry fuel ty pops strategy pre' visited')
            meta populate strategy pre)
          init

/-- `lookupEagerLoadedRelationships` at its canonical fuel. -/
def lookupEagerLoadedRelationships (registry : MetadataStorage) (entityName : String)
    (populate : List PopulateOptions) (strategy : Option LoadStrategy) :
    Option (List PopulateOptions) :=
  lookupEagerAux registry (registry.length + 1) entityName populate strategy "" []

/-- `EntityLoader.expandNestedPopulate` (lines 134–145): rewrite the remaining
dotted-path segments into a nested `children` chain.  `meta.properties[field]` is
only dereferenced when further segments remain, as in the source. -/
def expandNestedPopulate (registry : MetadataStorage) :
    String → String → List String → Option LoadStrategy → Option Bool →
    Option PopulateOptions
  | entityName, field, [], strategy, all => do
      let _meta ← registry.find entityName
      some (PopulateOptions.mk field strategy none all)
  | entityName, field, f2 :: rest, strategy, all => do
      let meta ← registry.find entityName
      let prop ← meta.findProp field
      let child ← expandNestedPopulate registry prop.type f2 rest strategy none
      some (PopulateOptions.mk field strategy (some [child]) all)

/-- The dot-expansion step of `normalizePopulate` (lines 86–97) applied to one
node: a field `"a.b..."` becomes field `"a"` with the tail pushed onto
`children`; the node's strategy defaults to the head property's strategy. -/
def expandDotted (registry : MetadataStorage) (entityName : String)
    (p : PopulateOptions) : Option PopulateOptions :=
  match splitOnDot p.field with
  | [] => some p
  | [_] => some p
  | f :: p2 :: parts => do
      let meta ← registry.find entityName
      let prop ← meta.findProp f
      let strat := nvl p.strategy prop.strategy
      let child ← expandNestedPopulate registry prop.type p2 parts strat p.all
      some (PopulateOptions.mk f strat (some ((p.children.getD []) ++ [child])) p.all)

/-- One step of the `reduce` in `mergeNestedPopulate` (lines 107–120): index the
accumulated nodes by field, pushing a later node's children onto the first
node seen for that field. -/
def mergeStep (acc : List (String × PopulateOptions)) (item : PopulateOptions) :
    List (String × PopulateOptions) :=
  match acc.find? (fun kv => kv.fst == item.field) with
  | none => acc ++ [(item.field, item)]
  | some _ =>
      acc.map (fun kv =>
        if kv.fst == item.field then
          (kv.fst,
            match kv.snd.children, item.children with
            | none, some c => PopulateOptions.mk kv.snd.field kv.snd.strategy (some c) kv.snd.all
            | some c1, some c2 =>
                PopulateOptions.mk kv.snd.field kv.snd.strategy (some (c1 ++ c2)) kv.snd.all
            | _, none => kv.snd)
        else kv)

/-- `EntityLoader.mergeNestedPopulate` (lines 106–129) with fuel: merge sibling
nodes sharing a field, then recursively merge each node's children.  The
recursion descends one tree level per call, so `popDepthList` is sufficient fuel
(`mergeNestedPopulate` applies it). -/
def mergeNestedPopulateAux : Nat → List PopulateOptions → List PopulateOptions
  | 0, l => l
  | fuel + 1, l =>
    let tmp := l.foldl mergeStep []
    tmp.map (fun kv =>
      match kv.snd.children with
      | none => kv.snd
      | some c =>
          PopulateOptions.mk kv.snd.field kv.snd.strategy
            (some (mergeNestedPopulateAux fuel c)) kv.snd.all)

/-- `mergeNestedPopulate` at its canonical fuel. -/
def mergeNestedPopulate (l : List PopulateOptions) : List PopulateOptions :=
  mergeNestedPopulateAux (popDepthList l) l

/-- `EntityLoader.normalizePopulate` (lines 74–101): expand `true`/`all` requests,
inject eager relations, expand dotted fields, merge duplicates.  `populate = false`
never reaches this point in the source (`Utils.isEmpty` guard) and models the JS
crash as `none`. -/
def normalizePopulate (registry : MetadataStorage) (entityName : String)
    (populate : PopReq) (strategy : Option LoadStrategy) (lookup : Bool) :
    Option (List PopulateOptions) := do
  let base ←
    match populate with
    | .bool true => lookupAllRelationships registry entityName
    | .bool false => none
    | .list l =>
        if l.any (fun p => p.all == some true) then
          lookupAllRelationships registry entityName
        else
          some l
  let looked ←
    if lookup then
      lookupEagerLoadedRelationships registry entityName base strategy
    else
      some base
  let expanded ← optMapM (expandDotted registry entityName) looked
  some (mergeNestedPopulate expanded)

/-! ## Entities and relationship slots

An entity instance (spec §3): scalar values plus relationship slots.  A slot is
`missing` (JS `undefined`), a scalar value, a reference (possibly wrapped, with
its target's primary key, load state and schema), or a `Collection` with its
fully-initialised state and item keys.  Object identity is modelled as
primary-key equality (identity-map discipline, spec §3). -/

/-- One relationship slot of an entity. -/
inductive SlotValue where
  | missing
  | scalarV (n : Int)
  | refV (pk : Int) (inited : Bool) (schema : Option String)
  | collV (inited : Bool) (items : List Int)
deriving DecidableEq, Repr

/-- JS truthiness of a slot value. -/
def SlotValue.truthy : SlotValue → Bool
  | .missing => false
  | .scalarV n => n != 0
  | _ => true

/-- A (tracked or untracked) entity instance. -/
structure Entity where
  pk : Int
  tracked : Bool := true
  schema : Option String := none
  slots : List (String × SlotValue) := []
deriving DecidableEq, Repr

/-- `entity[field]`. -/
def Entity.slot (e : Entity) (f : String) : SlotValue :=
  (((e.slots.find? (fun kv => kv.fst == f))).map (·.snd)).getD .missing

/-- Replace the first binding of a key, or append it (JS object keys are unique,
so first-occurrence replacement is in-place assignment). -/
def setSlotAux (f : String) (v : SlotValue) : List (String × SlotValue) →
    List (String × SlotValue)
  | [] => [(f, v)]
  | kv :: tl => if kv.fst == f then (kv.fst, v) :: tl else kv :: setSlotAux f v tl

/-- In-place slot assignment, modelled functionally. -/
def Entity.setSlot (e : Entity) (f : String) (v : SlotValue) : Entity :=
  { e with slots := setSlotAux f v e.slots }

/-- An unwrapped child reference: the data `findChildren` reads off a child
(`getPrimaryKeyValues` and `__helper.__schema`). -/
structure ChildRef where
  pk : Int
  schema : Option String := none
deriving DecidableEq, Repr

/-- A batched fetch issued to an external collaborator: either
`em.find(entityName, where, ...)` or `driver.loadFromPivotTable(prop, ids, ...)`. -/
inductive FetchCall where
  | find (entityName : String) (whereC : Cond)
  | pivot (propName : String) (ids : List Int)

/-- The external collaborators of the loader (spec §6), as oracles, plus the two
platform/config switches the loader branches on.
`resolveRow` models `EntityFactory.create` + `UnitOfWork.registerManaged` (a raw
pivot row becomes the canonical entity for its key); `resolveEntity` models the
identity map (the canonical instance per type and key); `applyFilters` models
`em.applyFilters` with the filter spec folded into the oracle. -/
structure LoaderEnv where
  registry : MetadataStorage
  emFind : String → Cond → List Entity
  pivotOracle : Int → List Int
  resolveRow : Int → Int
  resolveEntity : String → Int → Entity
  applyFilters : String → CondObj → CondObj
  processCustomType : Int → Int
  usesPivotTable : Bool := false
  autoJoinOneToOneOwner : Bool := false

/-- The predicate of `filterCollections` for `refresh: false`: an uninitialised
`Collection` in the slot. -/
def collQualifies (field : String) (refresh : Bool) (e : Entity) : Bool :=
  if refresh then
    (e.slot field).truthy
  else
    match e.slot field with
    | .collV inited _ => !inited
    | _ => false

/-- `EntityLoader.filterCollections` (lines 459–465): parents whose slot still
needs collection work. -/
def filterCollections (entities : List Entity) (field : String) (refresh : Bool) :
    List Entity :=
  entities.filter (collQualifies field refresh)

/-- Read a reference slot as a `ChildRef` (`Reference.unwrapReference`). -/
def refAsChild : SlotValue → ChildRef
  | .refV pk _ schema => { pk := pk, schema := schema }
  | _ => { pk := 0 }

/-- `EntityLoader.filterReferences` (lines 467–475): unwrapped references of the
parents whose reference slot still needs work. -/
def filterReferences (entities : List Entity) (field : String) (refresh : Bool) :
    List ChildRef :=
  let children := entities.filter (fun e =>
    match e.slot field with
    | .refV _ _ _ => true
    | _ => false)
  if refresh then
    children.map (fun e => refAsChild (e.slot field))
  else
    (children.filter (fun e =>
      match e.slot field with
      | .refV _ inited _ => !inited
      | _ => true)).map (fun e => refAsChild (e.slot field))

/-- `EntityLoader.filterByReferences` (lines 477–484): parents whose slot is not
an already-initialised reference (JS optional chaining keeps entities whose slot
is not an entity at all). -/
def filterByReferences (entities : List Entity) (field : String) (refresh : Bool) :
    List Entity :=
  if refresh then
    entities
  else
    entities.filter (fun e =>
      match e.slot field with
      | .refV _ inited _ => !inited
      | _ => true)

/-- The items of a collection slot, as `ChildRef`s (`Collection.getItems`). -/
def collItemRefs (v : SlotValue) : List ChildRef :=
  match v with
  | .collV _ items => items.map (fun pk => { pk := pk })
  | _ => []

/-- `EntityLoader.getChildReferences` (lines 442–457): the child references whose
keys form the batch for one relationship field. -/
def getChildReferences (entities : List Entity) (prop : EntityProperty)
    (refresh : Bool) : List ChildRef :=
  let filtered := filterCollections entities prop.name refresh
  if prop.reference == .oneToMany then
    -- each Collection's `owner` back-reference is the parent entity itself
    filtered.map (fun e => { pk := e.pk, schema := e.schema })
  else if prop.reference == .manyToMany && prop.owner then
    filtered.foldl (fun a b => a ++ collItemRefs (b.slot prop.name)) []
  else if prop.reference == .manyToMany then
    filtered.map (fun e => { pk := e.pk, schema := e.schema })
  else
    filterReferences entities prop.name refresh

/-! ## Options bags -/

/-- `options.filters`: `Dictionary<boolean | Dictionary> | string[] | boolean`. -/
inductive FiltersVal where
  | dict (entries : List (String × Bool))
  | names (l : List String)
  | flag (b : Bool)
deriving DecidableEq, Repr

/-- `EntityLoaderOptions<T>` (lines 14–29), restricted to the fields the claims
read; `orderBy` is kept only for its defaulting behaviour (its propagation is
elided), lock modes and connection plumbing are elided. -/
structure EntityLoaderOptions where
  where_ : Option CondObj := none
  orderBy : Option (List (String × Int)) := none
  refresh : Option Bool := none
  validate : Option Bool := none
  lookup : Option Bool := none
  convertCustomTypes : Option Bool := none
  ignoreLazyScalarProperties : Option Bool := none
  filters : Option FiltersVal := none
  strategy : Option LoadStrategy := none
  schema : Option String := none

/-- The `??=` defaulting block of `populate` (lines 52–58), which mutates the
caller's options object in place. -/
def applyDefaults (o : EntityLoaderOptions) : EntityLoaderOptions :=
  { o with
    where_ := some (o.where_.getD []),
    orderBy := some (o.orderBy.getD []),
    filters := some (o.filters.getD (.dict [])),
    lookup := some (o.lookup.getD true),
    validate := some (o.validate.getD true),
    refresh := some (o.refresh.getD false),
    convertCustomTypes := some (o.convertCustomTypes.getD true) }

/-- `Required<EntityLoaderOptions<T>>`: the view of the options after the
defaulting block. -/
structure ROptions where
  where_ : CondObj := []
  refresh : Bool := false
  validate : Bool := true
  lookup : Bool := true
  convertCustomTypes : Bool := true
  ignoreLazyScalarProperties : Bool := false
  strategy : Option LoadStrategy := none
  schema : Option String := none

/-- Read the defaulted options bag as a `Required` one. -/
def toRequired (o : EntityLoaderOptions) : ROptions :=
  { where_ := o.where_.getD [],
    refresh := o.refresh.getD false,
    validate := o.validate.getD true,
    lookup := o.lookup.getD true,
    convertCustomTypes := o.convertCustomTypes.getD true,
    ignoreLazyScalarProperties := o.ignoreLazyScalarProperties.getD false,
    strategy := o.strategy,
    schema := o.schema }

/-! ## Child-condition extraction and the batched fetch -/

/-- Replace-or-append a key of a condition object. -/
def setKey (o : CondObj) (k : String) (v : QVal) : CondObj :=
  if (o.find? (fun kv => kv.fst == k)).isSome then
    o.map (fun kv => if kv.fst == k then (kv.fst, v) else kv)
  else
    o ++ [(k, v)]

/-- `delete subCond[op]`. -/
def removeKey (o : CondObj) (k : String) : CondObj :=
  o.filter (fun kv => kv.fst != k)

/-- The `$and`/`$or` lifting of `extractChildCondition` (lines 370–387) for one
group operator: sub-conditions scoped to `prop` inside the group are collected
under the same operator of the child condition.  A truthy non-array value under
the operator key crashes in JS (`.map` on a non-array) and is `none` here. -/
def liftGroupOp (whereO : CondObj) (propName pk : String) (sub : CondObj)
    (op : String) : Option CondObj :=
  match condLookup whereO op with
  | none => some sub
  | some (.lit n) => if n = 0 then some sub else none
  | some (.obj _) => none
  | some (.arrN _) => some sub
  | some (.arrC conds) =>
      let child := (conds.filterMap (fun c => condLookup c propName)).filterMap (fun v =>
        match v with
        | .obj o =>
            -- drop operator-only sub-objects (they are handled by the operator lifting)
            if o.all (fun kv => isOperator kv.fst false) then none else some (QVal.obj o)
        | .lit n => some (.obj [(pk, .lit n)])          -- primary-key literal
        | .arrN ids => some (.obj [(pk, .arrN ids)])    -- composite/array primary key
        | .arrC cs => some (.obj [(pk, .arrC cs)]))
      let childObjs := child.filterMap (fun v => match v with | .obj o => some o | _ => none)
      if childObjs.length > 0 then some (setKey sub op (.arrC childObjs)) else some sub

/-- The operator-lifting loop of `extractChildCondition` (lines 389–397): move
top-level operator keys of the sub-condition under the target's primary key.
Assigning onto a primitive already stored under the key throws in JS. -/
def liftOperators (pk : String) : List String → CondObj → Option CondObj
  | [], sub => some sub
  | op :: ops, sub => do
      let v := (condLookup sub op).getD (.lit 0)
      let pkv ←
        match condLookup sub pk with
        | none => some ([] : CondObj)
        | some (.obj o) => some o
        | some _ => none
      liftOperators pk ops (setKey (removeKey sub op) pk (.obj (setKey pkv op v)))

/-- `EntityLoader.extractChildCondition` (lines 365–404): the caller-supplied
condition scoped to one relationship field. -/
def extractChildCondition (env : LoaderEnv) (ropts : ROptions)
    (prop : EntityProperty) (useFilters : Bool) : Option CondObj := do
  let subCond : CondObj :=
    match condLookup ropts.where_ prop.name with
    | some (.obj o) => o
    | _ => []
  let meta2 ← env.registry.find prop.type
  let pk := getPrimaryKeyHash meta2.primaryKeys
  let sub1 ← liftGroupOp ropts.where_ prop.name pk subCond "$and"
  let sub2 ← liftGroupOp ropts.where_ prop.name pk sub1 "$or"
  let operators := (sub2.filter (fun kv => isOperator kv.fst false)).map (·.fst)
  let sub3 ← liftOperators pk operators sub2
  if useFilters then
    some (env.applyFilters prop.type sub3)
  else
    some sub3

/-- The inverse-1:1 special case of `findChildren` (line 248): auto-join is off,
the populate node's strategy is not `JOINED`, and the relation is the inverse
side of a 1:1. -/
def isInverseO2O (env : LoaderEnv) (prop : EntityProperty)
    (popul : PopulateOptions) : Bool :=
  prop.reference == .oneToOne && !prop.owner && popul.strategy != some .joined &&
    !env.autoJoinOneToOneOwner

/-- The batch of child references `findChildren` fetches by (lines 239 and
249–251): the inverse-1:1 case replaces the collection-derived batch with the
parents still holding unresolved references. -/
def childBatch (env : LoaderEnv) (entities : List Entity) (prop : EntityProperty)
    (popul : PopulateOptions) (refresh : Bool) : List ChildRef :=
  if isInverseO2O env prop popul then
    (filterByReferences entities prop.name refresh).map
      (fun e => ({ pk := e.pk, schema := e.schema } : ChildRef))
  else
    getChildReferences entities prop refresh

/-- The merged lookup condition of `findChildren` (lines 262–263): unique batch
keys under the lookup key, conjoined with the caller's condition. -/
def findChildrenWhere (env : LoaderEnv) (entities : List Entity)
    (prop : EntityProperty) (popul : PopulateOptions) (ropts : ROptions)
    (fk : String) : Cond :=
  mergePrimaryCondition
    (uniqueList ((childBatch env entities prop popul ropts.refresh).map (fun c => c.pk)))
    fk ropts.where_ ropts.convertCustomTypes

/-- `EntityLoader.findChildren` (lines 238–273): derive the batch of child
references, the lookup key and the merged condition, then issue one batched
`em.find` — or nothing when the batch is empty.  The `fields`/`orderBy`
arguments and the schema forwarded to the find call (lines 258–260) are elided
with the call's options. -/
def findChildren (env : LoaderEnv) (entities : List Entity) (prop : EntityProperty)
    (popul : PopulateOptions) (ropts : ROptions) :
    Option (List FetchCall × List Entity) :=
  match env.registry.find prop.type with
  | none => none
  | some meta =>
    match (if prop.reference == .oneToMany ||
        (prop.reference == .manyToMany && !prop.owner) then
      (meta.findProp prop.mappedBy).map (fun p => p.name)
    else
      some (getPrimaryKeyHash meta.primaryKeys)) with
    | none => none
    | some fk1 =>
      match (if isInverseO2O env prop popul then
        (meta.findProp prop.mappedBy).map (fun p => p.name)
      else some fk1) with
      | none => none
      | some fk =>
        if (childBatch env entities prop popul ropts.refresh).length == 0 then
          some ([], [])
        else
          some ([FetchCall.find prop.type
              (findChildrenWhere env entities prop popul ropts fk)],
            env.emFind prop.type (findChildrenWhere env entities prop popul ropts fk))

/-! ## Re-attaching children and the pivot resolver -/

/-- The children of `data` that belong to one parent for a 1:m relation
(`initializeOneToMany`, lines 217–229): matched through the inverse field,
either by raw key (`mapToPk`) or by reference identity (primary-key equality
under the identity map). -/
def oneToManyItems (env : LoaderEnv) (prop : EntityProperty) (parent : Entity)
    (data : List Entity) : Option (List Int) := do
  let targetMeta ← env.registry.find prop.type
  let mbProp ← targetMeta.findProp prop.mappedBy
  some ((data.filter (fun child =>
    if mbProp.mapToPk then
      child.slot prop.mappedBy == .scalarV parent.pk
    else
      match child.slot prop.mappedBy with
      | .refV pk _ _ => pk == parent.pk
      | _ => false)).map (·.pk))

/-- Modelled from the spec: `Collection.hydrate(items)` (the `Collection` class is
not under `src/`) — replaces the collection contents and marks it initialised
(spec §3: collections "transition uninitialized → initialized"; refresh
"must replace (not append to) existing contents"). -/
def hydrateSlot (e : Entity) (field : String) (items : List Int) : Entity :=
  e.setSlot field (.collV true items)

/-- `initializeOneToMany` applied across the parent set: the source iterates the
aliased `filtered` entities and mutates them in place; here the same predicate
selects which entities of the full list are updated. -/
def hydrateOneToMany (env : LoaderEnv) (prop : EntityProperty) (refresh : Bool)
    (entities : List Entity) (data : List Entity) : Option (List Entity) :=
  optMapM (fun e =>
    if collQualifies prop.name refresh e then do
      let items ← oneToManyItems env prop e data
      some (hydrateSlot e prop.name items)
    else
      some e) entities

/-- `initializeManyToMany` (lines 231–236) applied across the parent set:
membership is tested through each child's reciprocal collection. -/
def hydrateManyToMany (prop : EntityProperty) (refresh : Bool)
    (entities : List Entity) (data : List Entity) : List Entity :=
  entities.map (fun e =>
    if collQualifies prop.name refresh e then
      hydrateSlot e prop.name
        ((data.filter (fun child =>
          match child.slot prop.mappedBy with
          | .collV _ items => items.contains e.pk
          | _ => false)).map (·.pk))
    else
      e)

/-- `EntityLoader.initializeCollections` (lines 207–215). -/
def hydrateCollections (env : LoaderEnv) (prop : EntityProperty) (refresh : Bool)
    (entities : List Entity) (data : List Entity) : Option (List Entity) :=
  if prop.reference == .oneToMany then
    hydrateOneToMany env prop refresh entities data
  else if prop.reference == .manyToMany && !prop.owner && !env.usesPivotTable then
    some (hydrateManyToMany prop refresh entities data)
  else
    some entities

/-- The per-parent hydration of `findChildrenFromPivotTable` (lines 348–359):
the parent's collection receives the entities resolved from the pivot rows for
its key, in exactly the order the pivot fetch returned them. -/
def pivotHydrate (env : LoaderEnv) (prop : EntityProperty) (e : Entity) : Entity :=
  hydrateSlot e prop.name ((env.pivotOracle e.pk).map env.resolveRow)

/-- The batch keys of a pivot fetch (lines 331 and 341–343): the parents'
primary keys, converted through the custom type when the property has one. -/
def pivotIds (env : LoaderEnv) (prop : EntityProperty) (filtered : List Entity) :
    List Int :=
  let ids0 := filtered.map (·.pk)
  if prop.customType then ids0.map env.processCustomType else ids0

/-- `EntityLoader.findChildrenFromPivotTable` (lines 330–363): one pivot fetch
for the whole batch (issued even when the batch is empty), then per-parent
hydration in returned-row order.  The `fields`/`options2` plumbing is elided. -/
def findChildrenFromPivotTable (env : LoaderEnv) (filtered : List Entity)
    (prop : EntityProperty) (ropts : ROptions) :
    Option (List FetchCall × List Entity × List Int) := do
  let whereC ← extractChildCondition env ropts prop true
  let _ := whereC   -- passed to the pivot fetch, whose condition argument is the oracle's
  let ids := pivotIds env prop filtered
  let updated := filtered.map (pivotHydrate env prop)
  let children := filtered.foldl (fun acc e =>
    acc ++ ((env.pivotOracle e.pk).map env.resolveRow)) []
  some ([FetchCall.pivot prop.name ids], updated, children)

/-! ## The per-field resolver -/

/-- The parents whose lazy scalar slot still needs loading (line 156). -/
def lazyScalarFiltered (entities : List Entity) (prop : EntityProperty)
    (refresh : Bool) : List Entity :=
  entities.filter (fun e => refresh || e.slot prop.name == .missing)

/-- The batched condition of the lazy-scalar fetch (lines 162–164). -/
def lazyScalarWhere (meta : EntityMetadata) (entities : List Entity)
    (prop : EntityProperty) (ropts : ROptions) : Cond :=
  mergePrimaryCondition
    (uniqueList ((lazyScalarFiltered entities prop ropts.refresh).map (fun e => e.pk)))
    (getPrimaryKeyHash meta.primaryKeys) ropts.where_ ropts.convertCustomTypes

/-- `EntityLoader.populateMany` (lines 150–205): resolve one relationship field
for the whole parent set.  Returns the fetch trace and the updated parents; the
`populated()` flag marking (lines 181–189) and the `innerOrderBy` extraction are
elided (neither is part of the modelled state). -/
def populateMany (env : LoaderEnv) (entityName : String) (entities : List Entity)
    (popul : PopulateOptions) (ropts : ROptions) :
    Option (List FetchCall × List Entity) :=
  match env.registry.find entityName with
  | none => none
  | some meta =>
    match meta.findProp popul.field with
    | none => none
    | some prop =>
      if prop.reference == .scalar && prop.lazy then
        if ropts.ignoreLazyScalarProperties ||
            (lazyScalarFiltered entities prop ropts.refresh).length == 0 then
          some ([], entities)
        else
          some ([FetchCall.find meta.name (lazyScalarWhere meta entities prop ropts)],
            entities)
      else if prop.reference == .embedded then
        some ([], entities)
      else if prop.reference == .manyToMany && env.usesPivotTable then
        match findChildrenFromPivotTable env
            (filterCollections entities prop.name ropts.refresh) prop ropts with
        | none => none
        | some (fs, _, _) =>
          some (fs, entities.map (fun e =>
            if collQualifies prop.name ropts.refresh e then pivotHydrate env prop e
            else e))
      else
        match extractChildCondition env ropts prop false with
        | none => none
        | some whereC =>
          match findChildren env entities prop popul { ropts with where_ := whereC } with
          | none => none
          | some (fs, data) =>
            match hydrateCollections env prop ropts.refresh entities data with
            | none => none
            | some entities2 => some (fs, entities2)

/-! ## The recursive orchestrator -/

/-- Errors surfaced by `populate` (spec §7).  JS `TypeError` crashes (failing `!`
assertions) are collapsed into `internalCrash`. -/
inductive LoaderError where
  | notDiscoveredEntity (entityName : String)
  | invalidPropertyName (entityName field : String)
  | internalCrash
deriving DecidableEq, Repr

/-- Modelled from the spec: `em.canPopulate` (`EntityManager`, not under `src/`) —
"validates every requested field name exists on the metadata" (spec §4.5); the
head segment of a dotted path is the name checked. -/
def canPopulate (registry : MetadataStorage) (entityName : String)
    (field : String) : Bool :=
  match registry.find entityName with
  | none => false
  | some meta => (meta.findProp (((splitOnDot field).head?).getD field)).isSome

/-- `Utils.isEmpty(populate)` on the populate request. -/
def reqIsEmpty : PopReq → Bool
  | .bool b => !b
  | .list l => l.isEmpty

mutual

/-- Total dotted segments in a populate node: bounds the depth any expansion of
the node can reach. -/
def popSegs : PopulateOptions → Nat
  | .mk f _ none _ => (splitOnDot f).length
  | .mk f _ (some l) _ => (splitOnDot f).length + popSegsList l

/-- Total dotted segments over a list of populate nodes. -/
def popSegsList : List PopulateOptions → Nat
  | [] => 0
  | p :: ps => popSegs p + popSegsList ps

end

/-- Canonical recursion fuel for a populate call: each orchestrator level
consumes at least one field segment, and eager injection can add at most the
registry's declared properties per level. -/
def populateFuel (registry : MetadataStorage) (req : PopReq) : Nat :=
  let regWeight := registry.foldl (fun acc m => acc + m.properties.length + 1) 1
  match req with
  | .bool _ => regWeight + 1
  | .list l => popSegsList l + regWeight + 1

/-- `EntityLoader.populateField` (lines 283–328), parameterised by the recursive
call back into `populate` (supplied with one level less fuel by `populateAux`):
skip plain scalars, resolve the field, then — when the node has children —
collect the freshly hydrated child instances and recurse into them with
`validate`/`lookup` disabled.  Embedded slot values are not modelled, so they
contribute no children here. -/
def populateFieldWith (env : LoaderEnv)
    (recur : String → List Entity → PopReq → EntityLoaderOptions →
      (Except LoaderError (List FetchCall × List Entity)) × EntityLoaderOptions)
    (entityName : String) (entities : List Entity) (pop : PopulateOptions)
    (ropts : ROptions) : Except LoaderError (List FetchCall × List Entity) :=
  match env.registry.find entityName with
  | none => .error .internalCrash
  | some meta =>
    match meta.findProp pop.field with
    | none => .error .internalCrash
    | some prop =>
      if prop.reference == .scalar && !prop.lazy then
        .ok ([], entities)
      else
        match pop.children with
        | none =>
          match populateMany env entityName entities pop ropts with
          | none => .error .internalCrash
          | some r => .ok r
        | some kids =>
          match populateMany env entityName entities pop ropts with
          | none => .error .internalCrash
          | some (fs1, es1) =>
            let childPks := es1.foldl (fun acc e =>
              match e.slot pop.field with
              | .refV pk _ _ => acc ++ [pk]
              | .collV _ items => acc ++ items
              | _ => acc) []
            let filtered := uniqueList childPks
            let childEntities := filtered.map (env.resolveEntity prop.type)
            match extractChildCondition env ropts prop false with
            | none => .error .internalCrash
            | some childWhere =>
              let childOptions : EntityLoaderOptions :=
                { where_ := some childWhere,
                  validate := some false,
                  lookup := some false,
                  refresh := some ropts.refresh,
                  ignoreLazyScalarProperties := some ropts.ignoreLazyScalarProperties }
              match recur prop.type childEntities (.list kids) childOptions with
              | (.ok (fs2, _), _) => .ok (fs1 ++ fs2, es1)
              | (.error e, _) => .error e

/-- `EntityLoader.populate` (lines 41–72) with explicit recursion fuel: guards,
in-place defaulting of the caller's options, normalization, up-front validation,
then the sequential per-field loop.  Returns the outcome together with the
caller's (possibly mutated) options object.  The serialization-context caching
(line 67) is elided. -/
def populateAux (env : LoaderEnv) :
    Nat → String → List Entity → PopReq → EntityLoaderOptions →
    (Except LoaderError (List FetchCall × List Entity)) × EntityLoaderOptions
  | 0, _, _, _, options => (.error .internalCrash, options)
  | fuel + 1, entityName, entities, req, options =>
    if entities.length == 0 || reqIsEmpty req then
      (.ok ([], entities), options)
    else if entities.any (fun e => !e.tracked) then
      (.error (.notDiscoveredEntity entityName), options)
    else
      let options' := applyDefaults options
      let ropts := toRequired options'
      match normalizePopulate env.registry entityName req options'.strategy ropts.lookup with
      | none => (.error .internalCrash, options')
      | some normalized =>
        match (if ropts.validate then
                normalized.find? (fun p => !canPopulate env.registry entityName p.field)
              else none) with
        | some bad => (.error (.invalidPropertyName entityName bad.field), options')
        | none =>
          let res := normalized.foldlM
            (fun (acc : List FetchCall × List Entity) pop => do
              let (fs, es) ← populateFieldWith env (populateAux env fuel) entityName
                acc.2 pop ropts
              Except.ok (acc.1 ++ fs, es))
            (([], entities) : List FetchCall × List Entity)
          match res with
          | .error e => (.error e, options')
          | .ok r => (.ok r, options')

/-- `EntityLoader.populateField` at a given fuel. -/
def populateField (env : LoaderEnv) (fuel : Nat) (entityName : String)
    (entities : List Entity) (pop : PopulateOptions) (ropts : ROptions) :
    Except LoaderError (List FetchCall × List Entity) :=
  populateFieldWith env (populateAux env fuel) entityName entities pop ropts

/-- `EntityLoader.populate` at its canonical fuel. -/
def EntityLoader.populate (env : LoaderEnv) (entityName : String)
    (entities : List Entity) (req : PopReq) (options : EntityLoaderOptions) :
    (Except LoaderError (List FetchCall × List Entity)) × EntityLoaderOptions :=
  populateAux env (populateFuel env.registry req) entityName entities req options

/-! ## Concrete fixtures for witnesses and counterexamples -/

/-- A metadata registry with a many-to-one relation `r : U → V` and a plain
scalar `s` on `U`. -/
def fixMetaU : EntityMetadata :=
  { name := "U",
    properties := [
      { name := "r", reference := .manyToOne, type := "V" },
      { name := "s", reference := .scalar, type := "" }] }

def fixMetaV : EntityMetadata := { name := "V", properties := [] }

def fixEnv : LoaderEnv :=
  { registry := [fixMetaU, fixMetaV]
    emFind := fun _ _ => []
    pivotOracle := fun _ => []
    resolveRow := id
    resolveEntity := fun _ pk => { pk := pk }
    applyFilters := fun _ c => c
    processCustomType := id }

/-- A self-referencing registry: `A.self` is an eager 1:1 edge back to `A`. -/
def cycMeta : EntityMetadata :=
  { name := "A",
    properties := [{ name := "self", reference := .oneToOne, type := "A", eager := true }] }

def cycReg : MetadataStorage := [cycMeta]

/-- The many-to-many pivot relation of the fixture. -/
def pivProp : EntityProperty :=
  { name := "perms", reference := .manyToMany, type := "Q", owner := true }

def pivMetaP : EntityMetadata := { name := "P", properties := [pivProp] }

def pivMetaQ : EntityMetadata := { name := "Q", properties := [] }

/-- A pivot platform whose fetch returns rows for parent `1` in the
deliberately non-ascending order `[30, 10]`. -/
def pivEnv : LoaderEnv :=
  { registry := [pivMetaP, pivMetaQ]
    emFind := fun _ _ => []
    pivotOracle := fun k => if k == 1 then [30, 10] else []
    resolveRow := id
    resolveEntity := fun _ pk => { pk := pk }
    applyFilters := fun _ c => c
    processCustomType := id
    usesPivotTable := true }

/-- A parent with an uninitialised `perms` collection. -/
def pivParent : Entity := { pk := 1, slots := [("perms", .collV false [])] }

/-- No relation anywhere in the registry is marked eager. -/
def noEager (registry : MetadataStorage) : Prop :=
  ∀ m ∈ registry, ∀ p ∈ m.properties, p.eager = false

instance (registry : MetadataStorage) : Decidable (noEager registry) := by
  unfold noEager
  infer_instance

/-- The counterexample registry for C6: `A.a` targets `B`, and `B.c` is eager. -/
def cexMetaA : EntityMetadata :=
  { name := "A", properties := [{ name := "a", reference := .manyToOne, type := "B" }] }

def cexMetaBe : EntityMetadata :=
  { name := "B",
    properties := [{ name := "c", reference := .manyToOne, type := "C", eager := true }] }

def cexRegE : MetadataStorage := [cexMetaA, cexMetaBe]

/-- Whether a property's kind makes it one of `meta.relations`. -/
def isRelationKind (p : EntityProperty) : Bool :=
  p.reference == .oneToOne || p.reference == .oneToMany ||
    p.reference == .manyToOne || p.reference == .manyToMany

/-- The merge-law fixture: `A.a → B` with no declared strategy, `B.b` scalar. -/
def mlMetaA : EntityMetadata :=
  { name := "A", properties := [{ name := "a", reference := .manyToOne, type := "B" }] }

def mlMetaB : EntityMetadata :=
  { name := "B", properties := [{ name := "b", reference := .scalar, type := "" }] }

def mlReg : MetadataStorage := [mlMetaA, mlMetaB]

/-- The same fixture but with a declared default strategy on `a`. -/
def mlMetaAj : EntityMetadata :=
  { name := "A",
    properties := [
      { name := "a", reference := .manyToOne, type := "B", strategy := some .joined }] }

def mlRegJ : MetadataStorage := [mlMetaAj, mlMetaB]

/-- A parent whose pivot collection is already fully initialised: it does not
qualify for loading. -/
def pivParentInit : Entity := { pk := 1, slots := [("perms", .collV true [5])] }

/-- A parent whose many-to-one reference `r` is already resolved. -/
def c3ent : Entity := { pk := 1, slots := [("r", .refV 7 true none)] }

/-- The pivot parent after a first populate run: its `perms` collection is
initialised with the pivot-fetched items. -/
def c3pivDone : Entity := { pk := 1, slots := [("perms", .collV true [30, 10])] }

/-! ## General lemmas about the embedding -/

@[simp] theorem PopulateOptions.field_mk (f : String) (s : Option LoadStrategy)
    (c : Option (List PopulateOptions)) (a : Option Bool) :
    (PopulateOptions.mk f s c a).field = f := rfl

@[simp] theorem PopulateOptions.strategy_mk (f : String) (s : Option LoadStrategy)
    (c : Option (List PopulateOptions)) (a : Option Bool) :
    (PopulateOptions.mk f s c a).strategy = s := rfl

@[simp] theorem PopulateOptions.children_mk (f : String) (s : Option LoadStrategy)
    (c : Option (List PopulateOptions)) (a : Option Bool) :
    (PopulateOptions.mk f s c a).children = c := rfl

@[simp] theorem PopulateOptions.all_mk (f : String) (s : Option LoadStrategy)
    (c : Option (List PopulateOptions)) (a : Option Bool) :
    (PopulateOptions.mk f s c a).all = a := rfl

theorem nvl_none_right {α : Type} (a : Option α) : nvl a none = a := by
  cases a <;> rfl

theorem find_setSlotAux (l : List (String × SlotValue)) (f : String) (v : SlotValue) :
    ((setSlotAux f v l).find? (fun kv => kv.fst == f)).map (·.snd) = some v := by
  induction l with
  | nil => simp [setSlotAux, List.find?]
  | cons kv tl ih =>
    by_cases hk : (kv.fst == f) = true
    · simp [setSlotAux, hk, List.find?_cons]
    · have hk' : (kv.fst == f) = false := by simpa using hk
      simp only [setSlotAux, hk', Bool.false_eq_true, if_false, List.find?_cons, cond_false]
      exact ih

theorem slot_setSlot (e : Entity) (f : String) (v : SlotValue) :
    (e.setSlot f v).slot f = v := by
  unfold Entity.setSlot Entity.slot
  simp only
  rw [find_setSlotAux e.slots f v]
  rfl

/-! ## Claim C5: merging the derived batch condition with the caller's -/

theorem condLookup_ne_of_none {o : CondObj} {k : String}
    (h : condLookup o k = none) : ∀ kv ∈ o, (kv.fst == k) = false := by
  intro kv hm
  unfold condLookup at h
  rcases hf : o.find? (fun kv => kv.fst == k) with _ | x
  · have := List.find?_eq_none.mp hf kv hm
    simpa using this
  · rw [hf] at h
    simp at h

/-- C5 (amended): when the caller's `where` binds the batch key to a truthy
value, `mergePrimaryCondition` conjoins the derived `$in` condition and the
caller's condition with `$and`; when the batch key is absent, the two objects
are shallow-merged with every binding of both preserved.  (A falsy binding of
the batch key instead overrides and discards the derived condition —
`mergePrimaryCondition_counterexample`.) -/
theorem mergePrimaryCondition_preserves (ids : List Int) (pk : String)
    (whereO : CondObj) (cct : Bool) :
    (∀ v, condLookup whereO pk = some v → v.truthy = true →
      mergePrimaryCondition ids pk whereO cct =
        .andC [.obj [(pk, .obj [("$in", .arrN ids)])], .obj whereO]) ∧
    (condLookup whereO pk = none →
      mergePrimaryCondition ids pk whereO cct =
        .obj ([(pk, .obj [("$in", .arrN ids)])] ++ whereO)) := by
  constructor
  · intro v hv htr
    unfold mergePrimaryCondition processWhere
    rw [hv]
    simp [htr]
  · intro hn
    unfold mergePrimaryCondition
    rw [hn]
    unfold processWhere spreadMerge
    simp only [List.map_cons, List.map_nil, hn, Option.getD_none]
    have hfilter : whereO.filter
        (fun kv => (condLookup [(pk, QVal.obj [("$in", QVal.arrN ids)])] kv.fst).isNone) =
        whereO := by
      apply List.filter_eq_self.mpr
      intro kv hm
      have hne := condLookup_ne_of_none hn kv hm
      unfold condLookup
      simp only [List.find?_cons]
      have hpk : (pk == kv.fst) = false := by
        rcases eq_or_ne pk kv.fst with he | he
        · rw [← he] at hne
          simp at hne
        · simp [he]
      simp [hpk]
    rw [hfilter]

/-- Witness for `mergePrimaryCondition_preserves` at concrete inputs: a truthy
caller binding of the batch key yields the `$and` conjunction. -/
theorem mergePrimaryCondition_preserves_witness :
    mergePrimaryCondition [1, 2] "id" [("id", QVal.lit 5)] true =
      .andC [.obj [("id", .obj [("$in", .arrN [1, 2])])], .obj [("id", QVal.lit 5)]] :=
  (mergePrimaryCondition_preserves [1, 2] "id" [("id", QVal.lit 5)] true).1
    (QVal.lit 5) rfl rfl

/-- C5 counterexample: the caller's condition does constrain the batch key, but
with the falsy value `0`; the source then shallow-merges instead of `$and`-ing,
and the spread lets the caller's binding override the derived `$in` condition,
which is discarded — contradicting "in both cases neither condition is
discarded". -/
theorem mergePrimaryCondition_counterexample :
    condLookup [("id", QVal.lit 0)] "id" = some (.lit 0) ∧
    mergePrimaryCondition [1, 2] "id" [("id", QVal.lit 0)] true =
      .obj [("id", QVal.lit 0)] :=
  ⟨rfl, rfl⟩

/-! ## Claim C9: plain scalars are silently skipped -/

/-- C9: for a spec node whose field is a non-lazy `SCALAR` property,
`populateField` returns immediately: no fetch is issued (empty trace), no error
is raised (an `ok` outcome), and the entities are returned unchanged. -/
theorem populateField_scalar_nonlazy (env : LoaderEnv) (fuel : Nat) (eN : String)
    (entities : List Entity) (pop : PopulateOptions) (ropts : ROptions)
    (meta : EntityMetadata) (prop : EntityProperty)
    (hm : env.registry.find eN = some meta) (hp : meta.findProp pop.field = some prop)
    (hs : prop.reference = .scalar) (hl : prop.lazy = false) :
    populateField env fuel eN entities pop ropts = .ok ([], entities) := by
  unfold populateField populateFieldWith
  simp only [hm]
  simp only [hp]
  simp [hs, hl, BEq.beq]

/-- Witness: the scalar field `s` of `U` is skipped with no fetch and no error. -/
theorem populateField_scalar_nonlazy_witness :
    populateField fixEnv 1 "U" [{ pk := 1 }] (popNode "s") {} = .ok ([], [{ pk := 1 }]) :=
  populateField_scalar_nonlazy fixEnv 1 "U" [{ pk := 1 }] (popNode "s") {}
    fixMetaU { name := "s", reference := .scalar, type := "" } rfl rfl rfl rfl

/-! ## Claim C7: cycle safety of the eager-relationship lookup -/

/-- C7: an entity type already on the visited path is not expanded further —
the lookup returns the incoming populate unchanged at any fuel — and on the
self-referencing registry `cycReg` normalizing an "all" populate halts with the
cyclic edge populated exactly one level deep (no children on the `self` node).
Totality of `lookupEagerAux` at the canonical fuel rests on the visited set:
each recursive call removes one registry name from the unvisited measure. -/
theorem lookupEager_visited_short_circuit :
    (∀ (registry : MetadataStorage) (fuel : Nat) (eN : String)
        (pops : List PopulateOptions) (s : Option LoadStrategy) (pre : String)
        (visited : List String), eN ∈ visited →
      lookupEagerAux registry (fuel + 1) eN pops s pre visited = some pops) ∧
    normalizePopulate cycReg "A" (.bool true) none true =
      some [PopulateOptions.mk "self" (some .selectIn) none (some true)] := by
  constructor
  · intro registry fuel eN pops s pre visited hmem
    unfold lookupEagerAux
    have hc : visited.contains eN = true := by
      simpa using hmem
    simp only [hc, if_true]
  · rfl

/-- Witness: with `A` already on the path, the lookup over the cyclic registry
returns its input unchanged. -/
theorem lookupEager_visited_short_circuit_witness :
    lookupEagerAux cycReg 2 "A" [popNode "self"] none "x" ["A"] =
      some [popNode "self"] :=
  lookupEager_visited_short_circuit.1 cycReg 1 "A" [popNode "self"] none "x" ["A"]
    (by simp)

/-! ## Claim C8: pivot hydration preserves the fetch-returned order -/

/-- C8: on the pivot path (`MANY_TO_MANY` on a pivot platform), `populateMany`
issues the single pivot fetch and hydrates each qualifying parent's collection
with exactly the rows the pivot fetch returned for that parent's key, resolved
through the entity factory, in that exact order — no re-sort. -/
theorem populateMany_pivot_order (env : LoaderEnv) (eN : String)
    (entities : List Entity) (pop : PopulateOptions) (ropts : ROptions)
    (meta : EntityMetadata) (prop : EntityProperty) (cw : CondObj)
    (hm : env.registry.find eN = some meta) (hp : meta.findProp pop.field = some prop)
    (hr : prop.reference = .manyToMany) (hpv : env.usesPivotTable = true)
    (hw : extractChildCondition env ropts prop true = some cw) :
    populateMany env eN entities pop ropts =
      some ([FetchCall.pivot prop.name
              (pivotIds env prop (filterCollections entities prop.name ropts.refresh))],
            entities.map (fun e =>
              if collQualifies prop.name ropts.refresh e then pivotHydrate env prop e
              else e)) ∧
    ∀ e : Entity,
      (pivotHydrate env prop e).slot prop.name =
        .collV true ((env.pivotOracle e.pk).map env.resolveRow) := by
  constructor
  · unfold populateMany
    simp [hm, hp, hr, hpv, BEq.beq, findChildrenFromPivotTable, hw, pivotIds]
  · intro e
    unfold pivotHydrate hydrateSlot
    exact slot_setSlot e prop.name _

/-- Witness for `populateMany_pivot_order`: the single pivot fetch is issued and
parent `1`'s collection is hydrated as `[30, 10]` — the pivot fetch order, not a
re-sort. -/
theorem populateMany_pivot_order_witness :
    (populateMany pivEnv "P" [pivParent] (popNode "perms") {} =
      some ([FetchCall.pivot pivProp.name
              (pivotIds pivEnv pivProp
                (filterCollections [pivParent] pivProp.name ({} : ROptions).refresh))],
            [pivParent].map (fun e =>
              if collQualifies pivProp.name ({} : ROptions).refresh e then
                pivotHydrate pivEnv pivProp e
              else e))) ∧
    (pivotHydrate pivEnv pivProp pivParent).slot "perms" = .collV true [30, 10] :=
  ⟨(populateMany_pivot_order pivEnv "P" [pivParent] (popNode "perms") {}
      pivMetaP pivProp [] rfl rfl rfl rfl rfl).1, rfl⟩

/-! ## Claim C10: in-place defaulting of the caller's options -/

theorem populateAux_snd (env : LoaderEnv) (fuel : Nat) (eN : String)
    (entities : List Entity) (req : PopReq) (opts : EntityLoaderOptions)
    (h1 : (entities.length == 0 || reqIsEmpty req) = false)
    (h3 : (entities.any fun e => !e.tracked) = false) :
    (populateAux env (fuel + 1) eN entities req opts).2 = applyDefaults opts := by
  unfold populateAux
  simp only [h1, Bool.false_eq_true, if_false, h3]
  split
  · rfl
  · split
    · rfl
    · split <;> rfl

/-- C10 (amended): after a non-empty `populate` call whose root entities all
pass the tracked-entity guard, the caller's options object holds the documented
defaults for every field the caller left undefined (`where {}`, `orderBy {}`,
`filters {}`, `lookup true`, `validate true`, `refresh false`,
`convertCustomTypes true`), caller-set fields keep their values, and the
remaining fields are untouched.  (A non-empty call that fails the tracked
guard mutates nothing — `populate_defaults_counterexample`.) -/
theorem populate_defaults_options (env : LoaderEnv) (eN : String)
    (entities : List Entity) (req : PopReq) (opts : EntityLoaderOptions)
    (h1 : entities ≠ []) (h2 : reqIsEmpty req = false)
    (h3 : ∀ e ∈ entities, e.tracked = true) :
    (EntityLoader.populate env eN entities req opts).2.where_ =
        some (opts.where_.getD []) ∧
    (EntityLoader.populate env eN entities req opts).2.orderBy =
        some (opts.orderBy.getD []) ∧
    (EntityLoader.populate env eN entities req opts).2.filters =
        some (opts.filters.getD (.dict [])) ∧
    (EntityLoader.populate env eN entities req opts).2.lookup =
        some (opts.lookup.getD true) ∧
    (EntityLoader.populate env eN entities req opts).2.validate =
        some (opts.validate.getD true) ∧
    (EntityLoader.populate env eN entities req opts).2.refresh =
        some (opts.refresh.getD false) ∧
    (EntityLoader.populate env eN entities req opts).2.convertCustomTypes =
        some (opts.convertCustomTypes.getD true) ∧
    (EntityLoader.populate env eN entities req opts).2.strategy = opts.strategy ∧
    (EntityLoader.populate env eN entities req opts).2.schema = opts.schema ∧
    (EntityLoader.populate env eN entities req opts).2.ignoreLazyScalarProperties =
        opts.ignoreLazyScalarProperties := by
  have hg1 : (entities.length == 0 || reqIsEmpty req) = false := by
    simp [h2, List.length_eq_zero, h1]
  have hg3 : (entities.any fun e => !e.tracked) = false := by
    by_contra hcon
    have hx : (entities.any fun e => !e.tracked) = true := by
      simpa using hcon
    obtain ⟨e, he, hne⟩ := List.any_eq_true.mp hx
    rw [h3 e he] at hne
    simp at hne
  have hpost : (EntityLoader.populate env eN entities req opts).2 =
      applyDefaults opts := by
    unfold EntityLoader.populate
    cases req with
    | bool b => exact populateAux_snd env _ eN entities (.bool b) opts hg1 hg3
    | list l => exact populateAux_snd env _ eN entities (.list l) opts hg1 hg3
  rw [hpost]
  unfold applyDefaults
  exact ⟨rfl, rfl, rfl, rfl, rfl, rfl, rfl, rfl, rfl, rfl⟩

/-- Witness for `populate_defaults_options`: with every optional field left
unset, the call writes all seven defaults into the options object. -/
theorem populate_defaults_options_witness :
    (EntityLoader.populate fixEnv "U" [{ pk := 1 }] (.list [popNode "r"]) {}).2.where_ =
        some ((({} : EntityLoaderOptions)).where_.getD []) ∧
    (EntityLoader.populate fixEnv "U" [{ pk := 1 }] (.list [popNode "r"]) {}).2.orderBy =
        some ((({} : EntityLoaderOptions)).orderBy.getD []) ∧
    (EntityLoader.populate fixEnv "U" [{ pk := 1 }] (.list [popNode "r"]) {}).2.filters =
        some ((({} : EntityLoaderOptions)).filters.getD (.dict [])) ∧
    (EntityLoader.populate fixEnv "U" [{ pk := 1 }] (.list [popNode "r"]) {}).2.lookup =
        some ((({} : EntityLoaderOptions)).lookup.getD true) ∧
    (EntityLoader.populate fixEnv "U" [{ pk := 1 }] (.list [popNode "r"]) {}).2.validate =
        some ((({} : EntityLoaderOptions)).validate.getD true) ∧
    (EntityLoader.populate fixEnv "U" [{ pk := 1 }] (.list [popNode "r"]) {}).2.refresh =
        some ((({} : EntityLoaderOptions)).refresh.getD false) ∧
    (EntityLoader.populate fixEnv "U" [{ pk := 1 }] (.list [popNode "r"]) {}).2.convertCustomTypes =
        some ((({} : EntityLoaderOptions)).convertCustomTypes.getD true) ∧
    (EntityLoader.populate fixEnv "U" [{ pk := 1 }] (.list [popNode "r"]) {}).2.strategy =
        (({} : EntityLoaderOptions)).strategy ∧
    (EntityLoader.populate fixEnv "U" [{ pk := 1 }] (.list [popNode "r"]) {}).2.schema =
        (({} : EntityLoaderOptions)).schema ∧
    (EntityLoader.populate fixEnv "U" [{ pk := 1 }] (.list [popNode "r"]) {}).2.ignoreLazyScalarProperties =
        (({} : EntityLoaderOptions)).ignoreLazyScalarProperties :=
  populate_defaults_options fixEnv "U" [{ pk := 1 }] (.list [popNode "r"]) {}
    (by simp) rfl (by intro e he; simp at he; rw [he])

/-- C10 counterexample: a non-empty call (one entity, non-empty spec) whose
entity is untracked throws `not-discovered-entity` before the defaulting block,
so `options.where` remains unset — contradicting "after any non-empty call,
options.where ... hold their default values". -/
theorem populate_defaults_counterexample :
    (EntityLoader.populate fixEnv "U" [{ pk := 1, tracked := false }]
        (.list [popNode "r"]) {}).1 =
      .error (.notDiscoveredEntity "U") ∧
    (EntityLoader.populate fixEnv "U" [{ pk := 1, tracked := false }]
        (.list [popNode "r"]) {}).2.where_ = none :=
  ⟨rfl, rfl⟩

/-! ## Lemmas about the normalizer (shared by the merge-law and all-populate
claims) -/

theorem optMapM_eq_map {α β : Type} (l : List α) (f : α → Option β) (g : α → β)
    (h : ∀ x ∈ l, f x = some (g x)) : optMapM f l = some (l.map g) := by
  induction l with
  | nil => rfl
  | cons x xs ih =>
    have hx := h x (by simp)
    have ht := ih (fun y hy => h y (by simp [hy]))
    unfold optMapM
    rw [hx, ht]
    rfl

theorem getRelationName_nonembedded (meta : EntityMetadata) (prop : EntityProperty)
    (h : prop.embedded = none) : getRelationName meta prop = some prop.name := by
  unfold getRelationName getRelationNameAux
  rw [h]

/-- The all-relations expansion when no relation lives inside an embeddable. -/
theorem lookupAllRelationships_plain (registry : MetadataStorage) (eN : String)
    (meta : EntityMetadata) (hm : registry.find eN = some meta)
    (he : ∀ p ∈ meta.relations, p.embedded = none) :
    lookupAllRelationships registry eN =
      some (meta.relations.map (fun p =>
        PopulateOptions.mk p.name (some .selectIn) none (some true))) := by
  unfold lookupAllRelationships
  rw [hm]
  show optMapM _ meta.relations = _
  exact optMapM_eq_map meta.relations _ _ (fun p hp => by
    rw [getRelationName_nonembedded meta p (he p hp)]
    rfl)

theorem lookupEagerAux_nil_populate (registry : MetadataStorage) (fuel : Nat)
    (eN : String) (s : Option LoadStrategy) (pre : String) (visited : List String)
    (hne : noEager registry) :
    lookupEagerAux registry (fuel + 1) eN [] s pre visited = some [] := by
  unfold lookupEagerAux
  by_cases hc : visited.contains eN = true
  · rw [if_pos hc]
  · rw [if_neg hc]
    cases hm : registry.find eN with
    | none => rfl
    | some meta =>
      simp only
      have hrel : meta.relations.filter
          (fun prop => prop.eager ||
            List.any ([] : List PopulateOptions) (fun p => p.field == prop.name)) = [] := by
        apply List.filter_eq_nil_iff.mpr
        intro p hp
        have hpe : p.eager = false :=
          hne meta (List.mem_of_find?_eq_some hm) p (List.mem_of_mem_filter hp)
        simp [hpe]
      rw [hrel]
      simp [ite_self]

theorem children_none_find (pops : List PopulateOptions)
    (h : ∀ x ∈ pops, x.children = none) (q : PopulateOptions → Bool) :
    ((pops.find? q).bind (·.children)).getD [] = [] := by
  cases hf : pops.find? q with
  | none => rfl
  | some x =>
    have := h x (List.mem_of_find?_eq_some hf)
    simp [this]

/-! ## Lemmas about `mergeNestedPopulate` -/

theorem foldl_mergeStep_fresh (A : List PopulateOptions) :
    ∀ acc : List (String × PopulateOptions),
    (∀ x ∈ A, ∀ kv ∈ acc, (kv.fst == x.field) = false) →
    (A.map PopulateOptions.field).Nodup →
    A.foldl mergeStep acc = acc ++ A.map (fun x => (x.field, x)) := by
  induction A with
  | nil => intro acc _ _; simp
  | cons x xs ih =>
    intro acc hfresh hnd
    have hfind : acc.find? (fun kv => kv.fst == x.field) = none := by
      apply List.find?_eq_none.mpr
      intro kv hkv
      simp [hfresh x (by simp) kv hkv]
    have hstep : mergeStep acc x = acc ++ [(x.field, x)] := by
      unfold mergeStep
      rw [hfind]
    rw [List.foldl_cons, hstep]
    rw [ih (acc ++ [(x.field, x)]) ?_ (by simpa using hnd.sublist (by simp))]
    · simp
    · intro y hy kv hkv
      rcases List.mem_append.mp hkv with h | h
      · exact hfresh y (by simp [hy]) kv h
      · have hkv' : kv = (x.field, x) := by simpa using h
        have hne : x.field ≠ y.field := by
          have := hnd
          simp only [List.map_cons, List.nodup_cons] at this
          intro hcon
          exact this.1 (hcon ▸ List.mem_map_of_mem PopulateOptions.field hy)
        simp [hkv', hne]

theorem foldl_mergeStep_present (E : List PopulateOptions) :
    ∀ acc : List (String × PopulateOptions),
    (∀ x ∈ E, (acc.find? (fun kv => kv.fst == x.field)).isSome = true) →
    (∀ x ∈ E, x.children = none) →
    E.foldl mergeStep acc = acc := by
  induction E with
  | nil => intro acc _ _; rfl
  | cons x xs ih =>
    intro acc hpresent hch
    have hstep : mergeStep acc x = acc := by
      unfold mergeStep
      cases hf : acc.find? (fun kv => kv.fst == x.field) with
      | none =>
        have hP := hpresent x (by simp)
        rw [hf] at hP
        simp at hP
      | some kv0 =>
        simp only
        conv_rhs => rw [← List.map_id acc]
        apply List.map_congr_left
        intro kv hkv
        by_cases hk : (kv.fst == x.field) = true
        · rcases kv with ⟨k, v⟩
          rcases hvc : v.children with _ | c <;>
            simp [hk, hch x (by simp), hvc]
        · simp [hk]
    rw [List.foldl_cons, hstep]
    exact ih acc (fun y hy => hpresent y (by simp [hy])) (fun y hy => hch y (by simp [hy]))

/-- Merging a duplicate-free, children-free prefix with extra children-free
nodes whose fields already occur in the prefix collapses to the prefix. -/
theorem mergeNestedPopulateAux_collapse (A E : List PopulateOptions) (fuel : Nat)
    (hnd : (A.map PopulateOptions.field).Nodup)
    (hAc : ∀ x ∈ A, x.children = none)
    (hEc : ∀ x ∈ E, x.children = none)
    (hEf : ∀ x ∈ E, x.field ∈ A.map PopulateOptions.field) :
    mergeNestedPopulateAux (fuel + 1) (A ++ E) = A := by
  unfold mergeNestedPopulateAux
  have h1 : (A ++ E).foldl mergeStep [] = A.map (fun x => (x.field, x)) := by
    rw [List.foldl_append]
    rw [foldl_mergeStep_fresh A [] (by intro x _ kv hkv; simp at hkv) hnd]
    simp only [List.nil_append]
    apply foldl_mergeStep_present E _ ?_ hEc
    intro x hx
    obtain ⟨y, hy, hyf⟩ := List.mem_map.mp (hEf x hx)
    cases hf : (A.map fun x => (x.field, x)).find? (fun kv => kv.fst == x.field) with
    | none =>
      have hz := List.find?_eq_none.mp hf (y.field, y) (List.mem_map_of_mem _ hy)
      simp [hyf] at hz
    | some z => simp
  rw [h1]
  rw [List.map_map]
  conv_rhs => rw [← List.map_id A]
  apply List.map_congr_left
  intro x hx
  simp [hAc x hx]

theorem foldlM_lookupEagerStep_extras
    (recur : String → List PopulateOptions → String → Option (List PopulateOptions))
    (meta : EntityMetadata) (pops : List PopulateOptions) (s : Option LoadStrategy) :
    ∀ (l : List EntityProperty) (init : List PopulateOptions),
    (∀ p ∈ l, p.embedded = none) →
    (∀ p ∈ l, recur p.type
        (((pops.find? (fun q => q.field == p.name)).bind (·.children)).getD [])
        p.name = some []) →
    l.foldlM (lookupEagerStep recur meta pops s "") init =
      some (init ++ l.map (fun p =>
        PopulateOptions.mk p.name (nvl s p.strategy) none none)) := by
  intro l
  induction l with
  | nil => intro init _ _; simp
  | cons p t ih =>
    intro init hemb hrec
    have hstep : lookupEagerStep recur meta pops s "" init p =
        some (init ++ [PopulateOptions.mk p.name (nvl s p.strategy) none none]) := by
      simp [lookupEagerStep, getRelationName_nonembedded meta p (hemb p (by simp)),
        hrec p (by simp)]
    rw [List.foldlM_cons, hstep]
    show List.foldlM (lookupEagerStep recur meta pops s "")
      (init ++ [PopulateOptions.mk p.name (nvl s p.strategy) none none]) t = _
    rw [ih _ (fun q hq => hemb q (by simp [hq])) (fun q hq => hrec q (by simp [hq]))]
    simp

theorem expandDotted_nodot (registry : MetadataStorage) (eN : String)
    (x : PopulateOptions) (h : splitOnDot x.field = [x.field]) :
    expandDotted registry eN x = some x := by
  unfold expandDotted
  rw [h]

theorem popDepthList_children_none (l : List PopulateOptions) (hl : l ≠ [])
    (hc : ∀ x ∈ l, x.children = none) : popDepthList l = 1 := by
  induction l with
  | nil => exact absurd rfl hl
  | cons x t ih =>
    have hx : popDepth x = 1 := by
      have := hc x (by simp)
      rcases x with ⟨f, s, c, a⟩
      simp only [PopulateOptions.children] at this
      rw [this]
      rfl
    cases t with
    | nil => simp [popDepthList, hx]
    | cons y u =>
      rw [popDepthList, hx, ih (by simp) (fun z hz => hc z (by simp [hz]))]
      simp

/-- Core of the all-relations normalization: starting from the all-nodes, the
eager lookup only re-adds each relation (merged away again), dotted expansion is
a no-op, and the merge collapses back to one childless `SELECT_IN`/`all` node
per relation. -/
theorem normalize_all_core (registry : MetadataStorage) (eN : String)
    (meta : EntityMetadata) (s : Option LoadStrategy)
    (hne : noEager registry) (hm : registry.find eN = some meta)
    (hemb : ∀ p ∈ meta.relations, p.embedded = none)
    (hdot : ∀ p ∈ meta.relations, splitOnDot p.name = [p.name])
    (hnd : (meta.relations.map (fun p => p.name)).Nodup) :
    ((lookupAllRelationships registry eN).bind fun base =>
      (lookupEagerLoadedRelationships registry eN base s).bind fun looked =>
      (optMapM (expandDotted registry eN) looked).bind fun expanded =>
      some (mergeNestedPopulate expanded)) =
    some (meta.relations.map (fun p =>
      PopulateOptions.mk p.name (some .selectIn) none (some true))) := by
  have hAc : ∀ x ∈ meta.relations.map (fun p =>
      PopulateOptions.mk p.name (some .selectIn) none (some true)),
      x.children = none := by
    intro x hx
    obtain ⟨q, _, hq⟩ := List.mem_map.mp hx
    rw [← hq]
    rfl
  have hEc : ∀ x ∈ meta.relations.map (fun p =>
      PopulateOptions.mk p.name (nvl s p.strategy) none none),
      x.children = none := by
    intro x hx
    obtain ⟨q, _, hq⟩ := List.mem_map.mp hx
    rw [← hq]
    rfl
  obtain ⟨k, hk⟩ : ∃ k, registry.length = k + 1 := by
    cases registry with
    | nil => simp [MetadataStorage.find, List.find?] at hm
    | cons m rest => exact ⟨rest.length, rfl⟩
  rw [lookupAllRelationships_plain registry eN meta hm hemb]
  rw [Option.some_bind]
  have hlooked : lookupEagerLoadedRelationships registry eN
      (meta.relations.map (fun p =>
        PopulateOptions.mk p.name (some .selectIn) none (some true))) s =
      some ((meta.relations.map (fun p =>
          PopulateOptions.mk p.name (some .selectIn) none (some true))) ++
        meta.relations.map (fun p =>
          PopulateOptions.mk p.name (nvl s p.strategy) none none)) := by
    unfold lookupEagerLoadedRelationships
    rw [hk]
    unfold lookupEagerAux
    rw [if_neg (by simp)]
    simp only [hm]
    have hrel : meta.relations.filter (fun prop => prop.eager ||
        (meta.relations.map (fun p =>
          PopulateOptions.mk p.name (some .selectIn) none (some true))).any
          (fun p => p.field == prop.name)) = meta.relations := by
      apply List.filter_eq_self.mpr
      intro p hp
      have hany : (meta.relations.map (fun p =>
          PopulateOptions.mk p.name (some .selectIn) none (some true))).any
          (fun q => q.field == p.name) = true := by
        apply List.any_eq_true.mpr
        refine ⟨PopulateOptions.mk p.name (some .selectIn) none (some true),
          List.mem_map_of_mem _ hp, ?_⟩
        simp [PopulateOptions.field]
      simp [hany]
    simp only [hrel]
    rw [foldlM_lookupEagerStep_extras _ meta _ s meta.relations _ hemb ?_]
    · simp
    · intro p hp
      rw [children_none_find _ hAc _]
      exact lookupEagerAux_nil_populate registry k p.type s p.name ([] ++ [eN]) hne
  rw [hlooked, Option.some_bind]
  have hexp : optMapM (expandDotted registry eN)
      ((meta.relations.map (fun p =>
          PopulateOptions.mk p.name (some .selectIn) none (some true))) ++
        meta.relations.map (fun p =>
          PopulateOptions.mk p.name (nvl s p.strategy) none none)) =
      some ((meta.relations.map (fun p =>
          PopulateOptions.mk p.name (some .selectIn) none (some true))) ++
        meta.relations.map (fun p =>
          PopulateOptions.mk p.name (nvl s p.strategy) none none)) := by
    have := optMapM_eq_map ((meta.relations.map (fun p =>
          PopulateOptions.mk p.name (some .selectIn) none (some true))) ++
        meta.relations.map (fun p =>
          PopulateOptions.mk p.name (nvl s p.strategy) none none))
      (expandDotted registry eN) id ?_
    · simpa using this
    · intro x hx
      rcases List.mem_append.mp hx with h | h
      · obtain ⟨q, hq, hqe⟩ := List.mem_map.mp h
        rw [← hqe]
        exact expandDotted_nodot registry eN _ (hdot q hq)
      · obtain ⟨q, hq, hqe⟩ := List.mem_map.mp h
        rw [← hqe]
        exact expandDotted_nodot registry eN _ (hdot q hq)
  rw [hexp, Option.some_bind]
  have hmerge : mergeNestedPopulate
      ((meta.relations.map (fun p =>
          PopulateOptions.mk p.name (some .selectIn) none (some true))) ++
        meta.relations.map (fun p =>
          PopulateOptions.mk p.name (nvl s p.strategy) none none)) =
      meta.relations.map (fun p =>
        PopulateOptions.mk p.name (some .selectIn) none (some true)) := by
    cases hrel0 : meta.relations with
    | nil => rfl
    | cons p0 rest =>
      have hall : ∀ x ∈ (((p0 :: rest).map (fun p =>
          PopulateOptions.mk p.name (some .selectIn) none (some true))) ++
          (p0 :: rest).map (fun p =>
            PopulateOptions.mk p.name (nvl s p.strategy) none none)),
          x.children = none := by
        rw [← hrel0]
        intro x hx
        rcases List.mem_append.mp hx with h | h
        · exact hAc x h
        · exact hEc x h
      unfold mergeNestedPopulate
      rw [popDepthList_children_none _ (by simp) hall]
      apply mergeNestedPopulateAux_collapse
      · have : ((p0 :: rest).map (fun p =>
            PopulateOptions.mk p.name (some .selectIn) none (some true))).map
            PopulateOptions.field = (p0 :: rest).map (fun p => p.name) := by
          rw [List.map_map]
          rfl
        rw [this, ← hrel0]
        exact hnd
      · rw [← hrel0]
        exact hAc
      · rw [← hrel0]
        exact hEc
      · intro x hx
        rw [← hrel0] at hx ⊢
        obtain ⟨q, hq, hqe⟩ := List.mem_map.mp hx
        have : (meta.relations.map (fun p =>
            PopulateOptions.mk p.name (some .selectIn) none (some true))).map
            PopulateOptions.field = meta.relations.map (fun p => p.name) := by
          rw [List.map_map]
          rfl
        rw [this]
        rw [← hqe]
        exact List.mem_map_of_mem _ hq
  rw [hmerge]

/-- C6 (amended): when the populate request is `true` or contains an `all` node,
normalization replaces it with exactly one spec per declared relation, each with
strategy `SELECT_IN`, `all: true` and no children — provided no relation lives
inside an embeddable and no relation anywhere in the registry is eager.  (An
eager relation on a target type contributes children to the merged node —
`normalize_all_counterexample`.) -/
theorem normalize_all_relations (registry : MetadataStorage) (eN : String)
    (meta : EntityMetadata) (s : Option LoadStrategy) (req : PopReq)
    (hne : noEager registry) (hm : registry.find eN = some meta)
    (hemb : ∀ p ∈ meta.relations, p.embedded = none)
    (hdot : ∀ p ∈ meta.relations, splitOnDot p.name = [p.name])
    (hnd : (meta.relations.map (fun p => p.name)).Nodup)
    (hreq : req = .bool true ∨
      (∃ l, req = .list l ∧ l.any (fun p => p.all == some true) = true)) :
    normalizePopulate registry eN req s true =
      some (meta.relations.map (fun p =>
        PopulateOptions.mk p.name (some .selectIn) none (some true))) := by
  rcases hreq with h | ⟨l, hl, hany⟩
  · subst h
    exact normalize_all_core registry eN meta s hne hm hemb hdot hnd
  · subst hl
    unfold normalizePopulate
    simp only [hany, if_true]
    exact normalize_all_core registry eN meta s hne hm hemb hdot hnd

/-- Witness: on the eager-free fixture, `populate: true` normalizes to the one
`SELECT_IN`/`all: true` childless node for the declared relation `r`. -/
theorem normalize_all_relations_witness :
    normalizePopulate [fixMetaU, fixMetaV] "U" (.bool true) none true =
      some (fixMetaU.relations.map (fun p =>
        PopulateOptions.mk p.name (some .selectIn) none (some true))) :=
  normalize_all_relations [fixMetaU, fixMetaV] "U" fixMetaU none (.bool true)
    (by intro m hm p hp
        simp only [List.mem_cons, List.mem_singleton] at hm
        rcases hm with h | h | h
        · subst h; simp [fixMetaU] at hp
          rcases hp with h1 | h1 <;> simp [h1]
        · subst h; simp [fixMetaV] at hp
        · cases h)
    rfl
    (by intro p hp; simp [fixMetaU, EntityMetadata.relations] at hp; simp [hp])
    (by intro p hp; simp [fixMetaU, EntityMetadata.relations] at hp; simp [hp, splitOnDot, splitOnDotAux])
    (by simp [fixMetaU, EntityMetadata.relations])
    (Or.inl rfl)

/-- C6 counterexample: normalizing `populate: true` on `A` produces a node for
`a` that carries a child (`c`, injected by the eager lookup on the target `B`) —
contradicting "every produced spec has ... no children". -/
theorem normalize_all_counterexample :
    normalizePopulate cexRegE "A" (.bool true) none true =
      some [PopulateOptions.mk "a" (some .selectIn)
        (some [PopulateOptions.mk "c" none none none]) (some true)] ∧
    (PopulateOptions.mk "a" (some .selectIn)
        (some [PopulateOptions.mk "c" none none none]) (some true)).children ≠ none :=
  ⟨rfl, by simp [PopulateOptions.children]⟩

/-! ## Sibling uniqueness of the merge output -/

theorem strBeq_comm (a b : String) : (a == b) = (b == a) := by
  by_cases h : a = b
  · subst h; rfl
  · have h' : b ≠ a := fun hc => h hc.symm
    simp [h, h']

theorem mergeStep_fst_field (acc : List (String × PopulateOptions))
    (x : PopulateOptions)
    (hinv : ∀ kv ∈ acc, kv.snd.field = kv.fst) :
    ((mergeStep acc x).map Prod.fst =
        acc.map Prod.fst ++ (if (acc.find? (fun kv => kv.fst == x.field)).isSome
          then [] else [x.field])) ∧
    (∀ kv ∈ mergeStep acc x, kv.snd.field = kv.fst) := by
  unfold mergeStep
  cases hf : acc.find? (fun kv => kv.fst == x.field) with
  | none =>
    constructor
    · simp
    · intro kv hkv
      rcases List.mem_append.mp hkv with h | h
      · exact hinv kv h
      · have : kv = (x.field, x) := by simpa using h
        rw [this]
  | some kv0 =>
    constructor
    · simp only [Option.isSome_some, if_true, List.append_nil, List.map_map]
      apply List.map_congr_left
      intro kv _
      by_cases heq : kv.fst = x.field <;> simp [heq]
    · intro kv hkv
      obtain ⟨kv1, hkv1, hkv1e⟩ := List.mem_map.mp hkv
      rw [← hkv1e]
      by_cases heq : kv1.fst = x.field
      · rcases hc : kv1.snd.children with _ | c <;> rcases hx : x.children with _ | xc <;>
          simp [heq, hc, hx, hinv kv1 hkv1]
      · simp [heq, hinv kv1 hkv1]

theorem foldl_mergeStep_invariant (l : List PopulateOptions) :
    ∀ acc : List (String × PopulateOptions),
    ((acc.map Prod.fst).Nodup ∧ ∀ kv ∈ acc, kv.snd.field = kv.fst) →
    (((l.foldl mergeStep acc).map Prod.fst).Nodup ∧
      ∀ kv ∈ l.foldl mergeStep acc, kv.snd.field = kv.fst) := by
  induction l with
  | nil => intro acc h; exact h
  | cons x t ih =>
    intro acc ⟨hnd, hinv⟩
    rw [List.foldl_cons]
    apply ih
    obtain ⟨hfst, hfld⟩ := mergeStep_fst_field acc x hinv
    refine ⟨?_, hfld⟩
    rw [hfst]
    cases hf : (acc.find? (fun kv => kv.fst == x.field)).isSome with
    | true => simpa [hf] using hnd
    | false =>
      simp only [hf, Bool.false_eq_true, if_false]
      rw [List.nodup_append]
      refine ⟨hnd, by simp, ?_⟩
      intro a ha
      simp only [List.mem_singleton]
      intro hb
      subst hb
      rcases hff : acc.find? (fun kv => kv.fst == x.field) with _ | z
      · obtain ⟨kv, hkvm, hkve⟩ := List.mem_map.mp ha
        have := List.find?_eq_none.mp hff kv hkvm
        rw [hkve] at this
        simp at this
      · rw [hff] at hf
        simp at hf

/-- Sibling fields are unique at the top level of any merge output. -/
theorem mergeNestedPopulateAux_fields_nodup (l : List PopulateOptions) (fuel : Nat) :
    ((mergeNestedPopulateAux (fuel + 1) l).map PopulateOptions.field).Nodup := by
  unfold mergeNestedPopulateAux
  obtain ⟨hnd, hinv⟩ := foldl_mergeStep_invariant l [] ⟨by simp, by simp⟩
  have : (List.map PopulateOptions.field
      ((l.foldl mergeStep []).map (fun kv =>
        match kv.snd.children with
        | none => kv.snd
        | some c =>
            PopulateOptions.mk kv.snd.field kv.snd.strategy
              (some (mergeNestedPopulateAux fuel c)) kv.snd.all))) =
      (l.foldl mergeStep []).map Prod.fst := by
    rw [List.map_map]
    apply List.map_congr_left
    intro kv hkv
    rcases hc : kv.snd.children with _ | c <;>
      simp [hc, hinv kv hkv]
  rw [this]
  exact hnd

/-! ## Lemmas locating one named property among the declared relations -/

theorem filter_name_eq_of_find (props : List EntityProperty) (nm : String)
    (propA : EntityProperty)
    (hnd : (props.map (fun p => p.name)).Nodup)
    (hf : props.find? (fun p => p.name == nm) = some propA) :
    props.filter (fun p => p.name == nm) = [propA] := by
  induction props with
  | nil => simp at hf
  | cons q t ih =>
    simp only [List.map_cons, List.nodup_cons] at hnd
    by_cases hq : (q.name == nm) = true
    · have hqa : q = propA := by
        rw [List.find?_cons] at hf
        simp only [hq, cond_true] at hf
        exact Option.some.inj hf
      have hqnm : q.name = nm := by simpa using hq
      have htf : t.filter (fun p => p.name == nm) = [] := by
        apply List.filter_eq_nil_iff.mpr
        intro p hp hc
        have hpn : p.name = nm := by simpa using hc
        exact hnd.1 (hqnm ▸ hpn ▸ List.mem_map_of_mem (fun p => p.name) hp)
      rw [List.filter_cons, if_pos hq, htf, hqa]
    · have hq' : (q.name == nm) = false := by simpa using hq
      rw [List.find?_cons] at hf
      simp only [hq', cond_false] at hf
      rw [List.filter_cons, if_neg (by simp [hq'])]
      exact ih hnd.2 hf

theorem relations_filter_name (meta : EntityMetadata) (nm : String)
    (propA : EntityProperty)
    (hnd : (meta.properties.map (fun p => p.name)).Nodup)
    (hf : meta.findProp nm = some propA) :
    meta.relations.filter (fun p => p.name == nm) =
      if isRelationKind propA then [propA] else [] := by
  unfold EntityMetadata.relations
  rw [List.filter_filter]
  have hcomm : meta.properties.filter
      (fun a => (a.name == nm) && (a.reference == .oneToOne || a.reference == .oneToMany ||
        a.reference == .manyToOne || a.reference == .manyToMany)) =
      (meta.properties.filter (fun p => p.name == nm)).filter isRelationKind := by
    rw [List.filter_filter]
    apply List.filter_congr
    intro p _
    unfold isRelationKind
    exact Bool.and_comm _ _
  rw [hcomm, filter_name_eq_of_find meta.properties nm propA hnd hf]
  rw [List.filter_cons]
  cases h : isRelationKind propA <;> simp [h]

/-- C2 (amended): with no eager relation in the registry and no declared default
strategy on property `a`, normalizing `["a", "a.b"]` and `["a.b"]` produce the
same result: the single node for `a` with the recursively merged children, and
no two sibling nodes share a field (third conjunct, which holds of every merge
output).  With a declared default strategy the two runs differ in the node's
`strategy` — `normalize_merge_law_counterexample`. -/
theorem normalize_merge_law (registry : MetadataStorage) (eN : String)
    (metaA metaB : EntityMetadata) (propA : EntityProperty) (s : Option LoadStrategy)
    (hne : noEager registry)
    (hm : registry.find eN = some metaA)
    (hf : metaA.findProp "a" = some propA)
    (hstrat : propA.strategy = none)
    (hembA : propA.embedded = none)
    (hnd : (metaA.properties.map (fun p => p.name)).Nodup)
    (hnab : ∀ p ∈ metaA.relations, p.name ≠ "a.b")
    (hB : registry.find propA.type = some metaB) :
    normalizePopulate registry eN (.list [popNode "a", popNode "a.b"]) s true =
      normalizePopulate registry eN (.list [popNode "a.b"]) s true ∧
    normalizePopulate registry eN (.list [popNode "a.b"]) s true =
      some [PopulateOptions.mk "a" none
        (some [PopulateOptions.mk "b" none none none]) none] ∧
    (∀ (l : List PopulateOptions) (fuel : Nat),
      ((mergeNestedPopulateAux (fuel + 1) l).map PopulateOptions.field).Nodup) := by
  obtain ⟨k, hk⟩ : ∃ k, registry.length = k + 1 := by
    cases registry with
    | nil => simp [MetadataStorage.find, List.find?] at hm
    | cons m rest => exact ⟨rest.length, rfl⟩
  have hname : propA.name = "a" := by
    have := List.find?_some hf
    simpa using this
  have hMem : metaA ∈ registry := List.mem_of_find?_eq_some hm
  have heager : ∀ p ∈ metaA.relations, p.eager = false := fun p hp =>
    hne metaA hMem p (List.mem_of_mem_filter hp)
  -- the dotted node expands to the `a`-with-child-`b` node in both runs
  have hexp_nab : expandDotted registry eN (popNode "a.b") =
      some (PopulateOptions.mk "a" none
        (some [PopulateOptions.mk "b" none none none]) none) := by
    unfold expandDotted
    rw [show splitOnDot (popNode "a.b").field = ["a", "b"] from rfl]
    simp [hm, popNode, hf, hstrat, nvl, expandNestedPopulate, hB]
  have hexp_na : expandDotted registry eN (popNode "a") = some (popNode "a") :=
    expandDotted_nodot registry eN _ rfl
  have hexp_extra : expandDotted registry eN (PopulateOptions.mk "a" s none none) =
      some (PopulateOptions.mk "a" s none none) :=
    expandDotted_nodot registry eN _ rfl
  -- run 1: the eager lookup adds (at most) a bare re-mention of `a`
  have hlooked1 : lookupEagerLoadedRelationships registry eN
      [popNode "a", popNode "a.b"] s =
      some ([popNode "a", popNode "a.b"] ++
        (if isRelationKind propA then [PopulateOptions.mk "a" s none none] else [])) := by
    unfold lookupEagerLoadedRelationships
    rw [hk]
    unfold lookupEagerAux
    rw [if_neg (by simp)]
    simp only [hm]
    have hrel1 : metaA.relations.filter (fun prop => prop.eager ||
        List.any [popNode "a", popNode "a.b"] (fun p => p.field == prop.name)) =
        metaA.relations.filter (fun p => p.name == "a") := by
      apply List.filter_congr
      intro p hp
      have hab : (("a.b" : String) == p.name) = false := by
        have := hnab p hp
        simp [Ne.symm this]
      simp only [heager p hp, List.any_cons, List.any_nil, popNode,
        PopulateOptions.field_mk, hab, Bool.false_eq_true, Bool.false_or, Bool.or_false]
      exact strBeq_comm "a" p.name
    rw [hrel1, relations_filter_name metaA "a" propA hnd hf]
    cases hrk : isRelationKind propA with
    | false => simp
    | true =>
      simp only [if_true]
      have hnest : lookupEagerAux registry (k + 1) propA.type [] s "a" [eN] =
          some [] :=
        lookupEagerAux_nil_populate registry k propA.type s "a" [eN] hne
      have hstep : lookupEagerStep
          (fun ty pops pre' => lookupEagerAux registry (k + 1) ty pops s pre' [eN])
          metaA [popNode "a", popNode "a.b"] s "" [popNode "a", popNode "a.b"] propA =
          some ([popNode "a", popNode "a.b"] ++ [PopulateOptions.mk "a" s none none]) := by
        simp [lookupEagerStep, getRelationName_nonembedded metaA propA hembA, hname,
          popNode, hnest, hstrat, nvl_none_right]
      simpa [popNode, List.foldlM_cons] using hstep
  -- run 2: the eager lookup adds nothing
  have hlooked2 : lookupEagerLoadedRelationships registry eN [popNode "a.b"] s =
      some [popNode "a.b"] := by
    unfold lookupEagerLoadedRelationships
    rw [hk]
    unfold lookupEagerAux
    rw [if_neg (by simp)]
    simp only [hm]
    have hrel2 : metaA.relations.filter (fun prop => prop.eager ||
        List.any [popNode "a.b"] (fun p => p.field == prop.name)) = [] := by
      apply List.filter_eq_nil_iff.mpr
      intro p hp
      have hab : (("a.b" : String) == p.name) = false := by
        have := hnab p hp
        simp [Ne.symm this]
      simp [heager p hp, popNode, hab]
    rw [hrel2]
    rfl
  refine ⟨?_, ?_, fun l fuel => mergeNestedPopulateAux_fields_nodup l fuel⟩
  · -- both runs normalize to the same merged node
    show (lookupEagerLoadedRelationships registry eN [popNode "a", popNode "a.b"] s).bind
        (fun looked => (optMapM (expandDotted registry eN) looked).bind
          (fun expanded => some (mergeNestedPopulate expanded))) =
      (lookupEagerLoadedRelationships registry eN [popNode "a.b"] s).bind
        (fun looked => (optMapM (expandDotted registry eN) looked).bind
          (fun expanded => some (mergeNestedPopulate expanded)))
    rw [hlooked1, hlooked2]
    cases hrk : isRelationKind propA with
    | false =>
      simp only [Bool.false_eq_true, if_false, List.append_nil, Option.some_bind]
      show (optMapM (expandDotted registry eN) [popNode "a", popNode "a.b"]).bind
          (fun expanded => some (mergeNestedPopulate expanded)) =
        (optMapM (expandDotted registry eN) [popNode "a.b"]).bind
          (fun expanded => some (mergeNestedPopulate expanded))
      simp [optMapM, hexp_na, hexp_nab]
      rfl
    | true =>
      simp only [if_true, Option.some_bind]
      show (optMapM (expandDotted registry eN)
          ([popNode "a", popNode "a.b"] ++ [PopulateOptions.mk "a" s none none])).bind
          (fun expanded => some (mergeNestedPopulate expanded)) =
        (optMapM (expandDotted registry eN) [popNode "a.b"]).bind
          (fun expanded => some (mergeNestedPopulate expanded))
      simp [optMapM, hexp_na, hexp_nab, hexp_extra]
      rfl
  · -- the result of the `["a.b"]` run, explicitly
    show (lookupEagerLoadedRelationships registry eN [popNode "a.b"] s).bind
        (fun looked => (optMapM (expandDotted registry eN) looked).bind
          (fun expanded => some (mergeNestedPopulate expanded))) =
      some [PopulateOptions.mk "a" none
        (some [PopulateOptions.mk "b" none none none]) none]
    rw [hlooked2]
    show (optMapM (expandDotted registry eN) [popNode "a.b"]).bind
        (fun expanded => some (mergeNestedPopulate expanded)) =
      some [PopulateOptions.mk "a" none
        (some [PopulateOptions.mk "b" none none none]) none]
    simp [optMapM, hexp_nab]
    rfl

/-- Witness for `normalize_merge_law` on the concrete fixture. -/
theorem normalize_merge_law_witness :
    normalizePopulate mlReg "A" (.list [popNode "a", popNode "a.b"]) none true =
      normalizePopulate mlReg "A" (.list [popNode "a.b"]) none true :=
  (normalize_merge_law mlReg "A" mlMetaA mlMetaB
    { name := "a", reference := .manyToOne, type := "B" } none
    (by decide)
    rfl rfl rfl rfl (by decide)
    (by decide) rfl).1

/-- C2 counterexample: when property `a` declares a default load strategy, the
`["a", "a.b"]` run keeps the bare node's absent strategy while the `["a.b"]` run
inherits the property default — the two runs do not produce the same
PopulateSpec node for `a`. -/
theorem normalize_merge_law_counterexample :
    normalizePopulate mlRegJ "A" (.list [popNode "a", popNode "a.b"]) none true =
      some [PopulateOptions.mk "a" none
        (some [PopulateOptions.mk "b" (some .joined) none none]) none] ∧
    normalizePopulate mlRegJ "A" (.list [popNode "a.b"]) none true =
      some [PopulateOptions.mk "a" (some .joined)
        (some [PopulateOptions.mk "b" (some .joined) none none]) none] ∧
    normalizePopulate mlRegJ "A" (.list [popNode "a", popNode "a.b"]) none true ≠
      normalizePopulate mlRegJ "A" (.list [popNode "a.b"]) none true := by
  refine ⟨rfl, rfl, ?_⟩
  have h1 : normalizePopulate mlRegJ "A" (.list [popNode "a", popNode "a.b"]) none true =
      some [PopulateOptions.mk "a" none
        (some [PopulateOptions.mk "b" (some .joined) none none]) none] := rfl
  have h2 : normalizePopulate mlRegJ "A" (.list [popNode "a.b"]) none true =
      some [PopulateOptions.mk "a" (some .joined)
        (some [PopulateOptions.mk "b" (some .joined) none none]) none] := rfl
  rw [h1, h2]
  simp

/-! ## Claim C1: one batched fetch per relationship field -/

theorem findChildrenFromPivotTable_fetches (env : LoaderEnv)
    (filtered : List Entity) (prop : EntityProperty) (ropts : ROptions)
    (t : List FetchCall × List Entity × List Int)
    (h : findChildrenFromPivotTable env filtered prop ropts = some t) :
    t.1 = [FetchCall.pivot prop.name (pivotIds env prop filtered)] := by
  unfold findChildrenFromPivotTable at h
  cases hx : extractChildCondition env ropts prop true with
  | none => rw [hx] at h; simp at h
  | some cw =>
    rw [hx] at h
    injection h with h'
    rw [← h']

theorem findChildren_fetch_count (env : LoaderEnv) (entities : List Entity)
    (prop : EntityProperty) (pop : PopulateOptions) (ropts : ROptions)
    (r : List FetchCall × List Entity)
    (h : findChildren env entities prop pop ropts = some r) :
    r.1.length = if childBatch env entities prop pop ropts.refresh = [] then 0
      else 1 := by
  unfold findChildren at h
  repeat' split at h
  all_goals
    first
      | exact Option.noConfusion h
      | (injection h with h'
         rw [← h']
         simp_all)

/-- C1 (amended): resolving one field never issues more than one batched fetch,
whatever the parent count (no N+1); and on the `findChildren` path the count is
exactly one when the derived child-reference batch is non-empty and zero when it
is empty (in particular zero when no parent qualifies).  The pivot path issues
its single pivot fetch even for an empty batch —
`populateMany_fetch_counterexample`. -/
theorem populateMany_fetch_count :
    (∀ (env : LoaderEnv) (eN : String) (entities : List Entity)
        (pop : PopulateOptions) (ropts : ROptions)
        (r : List FetchCall × List Entity),
      populateMany env eN entities pop ropts = some r → r.1.length ≤ 1) ∧
    (∀ (env : LoaderEnv) (entities : List Entity) (prop : EntityProperty)
        (pop : PopulateOptions) (ropts : ROptions)
        (r : List FetchCall × List Entity),
      findChildren env entities prop pop ropts = some r →
      r.1.length = if childBatch env entities prop pop ropts.refresh = [] then 0
        else 1) := by
  refine ⟨?_, findChildren_fetch_count⟩
  intro env eN entities pop ropts r h
  unfold populateMany at h
  split at h
  · exact Option.noConfusion h
  rename_i meta hmeta
  split at h
  · exact Option.noConfusion h
  rename_i prop hprop
  split at h
  · -- lazy-scalar branch
    split at h
    · injection h with h'
      rw [← h']
      simp
    · injection h with h'
      rw [← h']
      simp
  split at h
  · -- embedded branch
    injection h with h'
    rw [← h']
    simp
  split at h
  · -- pivot branch
    split at h
    · exact Option.noConfusion h
    rename_i fs d1 d2 hpiv
    injection h with h'
    rw [← h']
    have ht := findChildrenFromPivotTable_fetches env
      (filterCollections entities prop.name ropts.refresh) prop ropts
      (fs, d1, d2) hpiv
    have ht' : fs = [FetchCall.pivot prop.name
        (pivotIds env prop (filterCollections entities prop.name ropts.refresh))] := ht
    rw [ht']
    simp
  · -- findChildren path
    split at h
    · exact Option.noConfusion h
    rename_i cw hcw
    split at h
    · exact Option.noConfusion h
    rename_i fs data hfd
    split at h
    · exact Option.noConfusion h
    rename_i es2 hes2
    injection h with h'
    rw [← h']
    have hlen := findChildren_fetch_count env entities prop pop
      { ropts with where_ := cw } (fs, data) hfd
    have hlen' : fs.length = if childBatch env entities prop pop
        ({ ropts with where_ := cw } : ROptions).refresh = [] then 0 else 1 := hlen
    show fs.length ≤ 1
    rw [hlen']
    split <;> simp

/-- Witness for `populateMany_fetch_count`: one parent with an unresolved
many-to-one reference issues exactly one batched find. -/
theorem populateMany_fetch_count_witness :
    populateMany fixEnv "U" [{ pk := 1, slots := [("r", .refV 7 false none)] }]
        (popNode "r") {} =
      some ([FetchCall.find "V" (Cond.obj [("id", QVal.obj [("$in", QVal.arrN [7])])])],
        [{ pk := 1, slots := [("r", .refV 7 false none)] }]) ∧
    ([FetchCall.find "V" (Cond.obj [("id", QVal.obj [("$in", QVal.arrN [7])])])],
      ([{ pk := 1, slots := [("r", .refV 7 false none)] }] : List Entity)).1.length ≤ 1 :=
  ⟨rfl, populateMany_fetch_count.1 fixEnv "U"
    [{ pk := 1, slots := [("r", .refV 7 false none)] }] (popNode "r") {}
    ([FetchCall.find "V" (Cond.obj [("id", QVal.obj [("$in", QVal.arrN [7])])])],
      [{ pk := 1, slots := [("r", .refV 7 false none)] }]) rfl⟩

/-- C1 counterexample: on the pivot path, no parent qualifies (the collection is
initialised, `filterCollections` is empty), yet `populateMany` still issues one
pivot fetch with an empty batch — contradicting "zero when no parent
qualifies". -/
theorem populateMany_fetch_counterexample :
    filterCollections [pivParentInit] "perms" false = [] ∧
    (populateMany pivEnv "P" [pivParentInit] (popNode "perms") {}).map
      (fun r => r.1) = some [FetchCall.pivot "perms" []] :=
  ⟨rfl, rfl⟩

/-! ## Claim C3: already-initialised parents are skipped (idempotence) -/

theorem optMapM_mem {α β : Type} (f : α → Option β) :
    ∀ (l : List α) (l' : List β), optMapM f l = some l' →
    ∀ y ∈ l', ∃ x ∈ l, f x = some y := by
  intro l
  induction l with
  | nil =>
    intro l' h y hy
    unfold optMapM at h
    injection h with h'
    rw [← h'] at hy
    simp at hy
  | cons x xs ih =>
    intro l' h y hy
    unfold optMapM at h
    cases hx : f x with
    | none => rw [hx] at h; simp at h
    | some y0 =>
      rw [hx] at h
      cases hxs : optMapM f xs with
      | none =>
        rw [hxs] at h
        simp at h
      | some ys =>
        rw [hxs] at h
        injection h with h'
        rw [← h'] at hy
        rcases List.mem_cons.mp hy with hh | hh
        · exact ⟨x, by simp, by rw [hx, hh]⟩
        · obtain ⟨x1, hx1, hfx1⟩ := ih ys hxs y hh
          exact ⟨x1, by simp [hx1], hfx1⟩

theorem collQualifies_hydrated (field : String) (e : Entity) (items : List Int) :
    collQualifies field false (hydrateSlot e field items) = false := by
  unfold collQualifies hydrateSlot
  rw [if_neg (by simp)]
  rw [slot_setSlot]
  rfl

theorem hydrateOneToMany_result (env : LoaderEnv) (prop : EntityProperty)
    (entities data es1 : List Entity)
    (h : hydrateOneToMany env prop false entities data = some es1) :
    ∀ e' ∈ es1, collQualifies prop.name false e' = false := by
  intro e' he'
  obtain ⟨x, _, hfx⟩ := optMapM_mem _ entities es1 h e' he'
  by_cases hq : collQualifies prop.name false x = true
  · rw [if_pos hq] at hfx
    cases ho : oneToManyItems env prop x data with
    | none => rw [ho] at hfx; simp at hfx
    | some items =>
      rw [ho] at hfx
      injection hfx with hfx'
      rw [← hfx']
      exact collQualifies_hydrated prop.name x items
  · rw [if_neg hq] at hfx
    injection hfx with hfx'
    rw [← hfx']
    simpa using hq

/-- C3 (amended): with `refresh: false`, parents whose collection is already
initialised or whose reference is already resolved are filtered out, so
resolving the same field a second time issues zero additional fetches — on the
one-to-many and many-to-one paths.  First conjunct: running `populateMany`
again on the output of a one-to-many run fetches nothing and leaves the
entities unchanged.  Second conjunct: a many-to-one run over parents whose
references are all resolved fetches nothing at all.  (On the many-to-many
pivot path the second run is not a no-op: the pivot fetch is issued even when
every collection is already initialised —
`populateMany_idempotent_counterexample`.) -/
theorem populateMany_idempotent :
    (∀ (env : LoaderEnv) (eN : String) (entities : List Entity)
        (pop : PopulateOptions) (ropts : ROptions) (meta : EntityMetadata)
        (prop : EntityProperty) (fs1 : List FetchCall) (es1 : List Entity),
      env.registry.find eN = some meta →
      meta.findProp pop.field = some prop →
      prop.reference = .oneToMany →
      ropts.refresh = false →
      populateMany env eN entities pop ropts = some (fs1, es1) →
      populateMany env eN es1 pop ropts = some ([], es1)) ∧
    (∀ (env : LoaderEnv) (eN : String) (entities : List Entity)
        (pop : PopulateOptions) (ropts : ROptions) (meta meta2 : EntityMetadata)
        (prop : EntityProperty) (cw : CondObj),
      env.registry.find eN = some meta →
      meta.findProp pop.field = some prop →
      prop.reference = .manyToOne →
      ropts.refresh = false →
      env.registry.find prop.type = some meta2 →
      extractChildCondition env ropts prop false = some cw →
      (∀ e ∈ entities, ∀ pk inited sch,
        e.slot prop.name = .refV pk inited sch → inited = true) →
      populateMany env eN entities pop ropts = some ([], entities)) := by
  constructor
  · intro env eN entities pop ropts meta prop fs1 es1 hm hp hr hrefresh hrun
    have hsc : (prop.reference == ReferenceType.scalar && prop.lazy) = false := by
      simp [hr, BEq.beq]
    have hemb : (prop.reference == ReferenceType.embedded) = false := by
      simp [hr, BEq.beq]
    have hm2m : (prop.reference == ReferenceType.manyToMany && env.usesPivotTable) =
        false := by
      simp [hr, BEq.beq]
    have ho2m : (prop.reference == ReferenceType.oneToMany) = true := by
      simp [hr, BEq.beq]
    unfold populateMany at hrun
    rw [hm] at hrun
    simp only [hp, hsc, Bool.false_eq_true, if_false, hemb, hm2m] at hrun
    split at hrun
    · exact Option.noConfusion hrun
    rename_i cw hcw
    split at hrun
    · exact Option.noConfusion hrun
    rename_i fs data hfd
    split at hrun
    · exact Option.noConfusion hrun
    rename_i es2 hhy
    injection hrun with hrun'
    have hes : es2 = es1 := congrArg Prod.snd hrun'
    rw [hrefresh] at hhy
    unfold hydrateCollections at hhy
    rw [if_pos ho2m] at hhy
    have hdone : ∀ e' ∈ es1, collQualifies prop.name false e' = false := by
      rw [← hes]
      exact hydrateOneToMany_result env prop entities data es2 hhy
    have hfilter : filterCollections es1 prop.name false = [] := by
      apply List.filter_eq_nil_iff.mpr
      intro e' he'
      simp [hdone e' he']
    unfold findChildren at hfd
    split at hfd
    · exact Option.noConfusion hfd
    rename_i meta2 hm2
    split at hfd
    · exact Option.noConfusion hfd
    rename_i fk1 hfk1
    split at hfd
    · exact Option.noConfusion hfd
    rename_i fk hfk
    have hcond : (prop.reference == ReferenceType.oneToMany ||
        (prop.reference == ReferenceType.manyToMany && !prop.owner)) = true := by
      simp [hr, BEq.beq]
    have hio : isInverseO2O env prop pop = false := by
      simp [isInverseO2O, hr, BEq.beq]
    unfold populateMany
    rw [hm]
    simp only [hp, hsc, Bool.false_eq_true, if_false, hemb, hm2m]
    have hfc2 : findChildren env es1 prop pop { ropts with where_ := cw } =
        some ([], []) := by
      unfold findChildren
      simp only [hm2, hfk1, hfk]
      have hbatch : childBatch env es1 prop pop
          ({ ropts with where_ := cw } : ROptions).refresh = [] := by
        unfold childBatch
        rw [if_neg (by simp [hio])]
        unfold getChildReferences
        rw [if_pos ho2m]
        have hrf : ({ ropts with where_ := cw } : ROptions).refresh = false := hrefresh
        rw [hrf, hfilter]
        rfl
      rw [hbatch]
      rfl
    have hhy2 : hydrateCollections env prop ropts.refresh es1 [] = some es1 := by
      rw [hrefresh]
      unfold hydrateCollections
      rw [if_pos ho2m]
      unfold hydrateOneToMany
      conv_rhs => rw [show es1 = List.map id es1 from (List.map_id es1).symm]
      apply optMapM_eq_map
      intro e' he'
      rw [if_neg (by simp [hdone e' he'])]
      rfl
    simp only [hcw, hfc2, hhy2]
  · intro env eN entities pop ropts meta meta2 prop cw hm hp hr hrefresh hm2 hcw hinit
    have hsc : (prop.reference == ReferenceType.scalar && prop.lazy) = false := by
      simp [hr, BEq.beq]
    have hemb : (prop.reference == ReferenceType.embedded) = false := by
      simp [hr, BEq.beq]
    have hm2m : (prop.reference == ReferenceType.manyToMany && env.usesPivotTable) =
        false := by
      simp [hr, BEq.beq]
    have hcond : (prop.reference == ReferenceType.oneToMany ||
        (prop.reference == ReferenceType.manyToMany && !prop.owner)) = false := by
      simp [hr, BEq.beq]
    have hio : isInverseO2O env prop pop = false := by
      simp [isInverseO2O, hr, BEq.beq]
    have hrefs : filterReferences entities prop.name false = [] := by
      unfold filterReferences
      rw [if_neg (by simp)]
      have hfl : (entities.filter (fun e =>
          match e.slot prop.name with
          | SlotValue.refV _ _ _ => true
          | _ => false)).filter (fun e =>
          match e.slot prop.name with
          | SlotValue.refV _ inited _ => !inited
          | _ => true) = [] := by
        apply List.filter_eq_nil_iff.mpr
        intro e he
        have hemem : e ∈ entities := List.mem_of_mem_filter he
        cases hslot : e.slot prop.name with
        | refV pk inited sch =>
          simp [hslot, hinit e hemem pk inited sch hslot]
        | missing =>
          have := List.of_mem_filter he
          rw [hslot] at this
          simp at this
        | scalarV n =>
          have := List.of_mem_filter he
          rw [hslot] at this
          simp at this
        | collV i its =>
          have := List.of_mem_filter he
          rw [hslot] at this
          simp at this
      rw [hfl]
      rfl
    unfold populateMany
    rw [hm]
    simp only [hp, hsc, Bool.false_eq_true, if_false, hemb, hm2m]
    have hfc : findChildren env entities prop pop { ropts with where_ := cw } =
        some ([], []) := by
      unfold findChildren
      simp only [hm2, hcond, Bool.false_eq_true, if_false, hio]
      have hbatch : childBatch env entities prop pop
          ({ ropts with where_ := cw } : ROptions).refresh = [] := by
        unfold childBatch
        rw [if_neg (by simp [hio])]
        unfold getChildReferences
        have ho2mf : (prop.reference == ReferenceType.oneToMany) = false := by
          simp [hr, BEq.beq]
        have hmmf : (prop.reference == ReferenceType.manyToMany && prop.owner) =
            false := by
          simp [hr, BEq.beq]
        have hmmf2 : (prop.reference == ReferenceType.manyToMany) = false := by
          simp [hr, BEq.beq]
        rw [if_neg (by simp [ho2mf]), if_neg (by simp [hmmf]), if_neg (by simp [hmmf2])]
        have hrf : ({ ropts with where_ := cw } : ROptions).refresh = false := hrefresh
        rw [hrf]
        exact hrefs
      rw [hbatch]
      rfl
    have hhy : hydrateCollections env prop ropts.refresh entities [] =
        some entities := by
      unfold hydrateCollections
      have ho2mf : (prop.reference == ReferenceType.oneToMany) = false := by
        simp [hr, BEq.beq]
      rw [if_neg (by simp [ho2mf])]
      have hmm : (prop.reference == ReferenceType.manyToMany && !prop.owner &&
          !env.usesPivotTable) = false := by
        simp [hr, BEq.beq]
      rw [if_neg (by simp [hmm])]
    simp only [hcw, hfc, hhy]

/-- Witness: with the reference already resolved and `refresh: false`, resolving
`r` again issues no fetch and leaves the entity untouched. -/
theorem populateMany_idempotent_witness :
    populateMany fixEnv "U" [c3ent] (popNode "r") {} = some ([], [c3ent]) :=
  populateMany_idempotent.2 fixEnv "U" [c3ent] (popNode "r") {} fixMetaU fixMetaV
    { name := "r", reference := .manyToOne, type := "V" } []
    rfl rfl rfl rfl rfl rfl
    (by
      intro e he pk inited sch h
      simp only [List.mem_singleton] at he
      subst he
      have h' : SlotValue.refV 7 true none = SlotValue.refV pk inited sch := h
      injection h' with h1 h2 h3
      exact h2.symm)

/-- C3 counterexample: on the pivot platform, a first run hydrates parent `1`'s
collection; a second run with the same spec and `refresh: false` nevertheless
issues one more pivot fetch (with an empty key batch) — contradicting "issues
zero additional batched fetches" for every spec. -/
theorem populateMany_idempotent_counterexample :
    populateMany pivEnv "P" [pivParent] (popNode "perms") {} =
      some ([FetchCall.pivot "perms" [1]], [c3pivDone]) ∧
    populateMany pivEnv "P" [c3pivDone] (popNode "perms") {} =
      some ([FetchCall.pivot "perms" []], [c3pivDone]) :=
  ⟨rfl, rfl⟩

/-! ## Claim C4: up-front validation of requested field names -/

/-- The first field of the normalized spec that the metadata does not declare
aborts `populateAux` with `invalid-property-name` before the per-field loop
runs. -/
theorem populateAux_invalid (env : LoaderEnv) (fuel : Nat) (eN : String)
    (entities : List Entity) (req : PopReq) (options : EntityLoaderOptions)
    (normalized : List PopulateOptions) (bad : PopulateOptions)
    (h1 : (entities.length == 0 || reqIsEmpty req) = false)
    (h2 : entities.any (fun e => !e.tracked) = false)
    (hv : options.validate.getD true = true)
    (hn : normalizePopulate env.registry eN req (applyDefaults options).strategy
        (toRequired (applyDefaults options)).lookup = some normalized)
    (hf : normalized.find? (fun p => !canPopulate env.registry eN p.field) =
        some bad) :
    populateAux env (fuel + 1) eN entities req options =
      (.error (.invalidPropertyName eN bad.field), applyDefaults options) := by
  unfold populateAux
  rw [h1]
  simp only [Bool.false_eq_true, if_false, h2, hn]
  have hrv : (toRequired (applyDefaults options)).validate = true := by
    simp [toRequired, applyDefaults, hv]
  simp only [hrv, if_true, hf]

/-- Any fuel value for a populate request is a successor. -/
theorem populateFuel_pos (r : MetadataStorage) (req : PopReq) :
    ∃ k, populateFuel r req = k + 1 := by
  cases req <;> exact ⟨_, rfl⟩

/-- One field step never produces `invalid-property-name` itself: it can only
crash or propagate such an error out of the recursive call, and the recursive
call is always made with `validate: false`. -/
theorem populateFieldWith_novalidate (env : LoaderEnv)
    (recur : String → List Entity → PopReq → EntityLoaderOptions →
      (Except LoaderError (List FetchCall × List Entity)) × EntityLoaderOptions)
    (hrec : ∀ t es req (o : EntityLoaderOptions), o.validate = some false →
      ∀ n f, (recur t es req o).1 ≠ .error (.invalidPropertyName n f))
    (eN : String) (entities : List Entity) (pop : PopulateOptions)
    (ropts : ROptions) (n f : String) :
    populateFieldWith env recur eN entities pop ropts ≠
      .error (.invalidPropertyName n f) := by
  intro h
  unfold populateFieldWith at h
  repeat' split at h
  all_goals first
    | exact Except.noConfusion h
    | (injection h with he; exact LoaderError.noConfusion he)
    | skip
  dsimp only at h
  split at h
  · exact Except.noConfusion h
  · rename_i e o heq
    injection h with he
    exact hrec _ _ _ _ rfl n f (by rw [heq]; simp [he])

/-- A monadic left fold whose step never yields `invalid-property-name` cannot
fail with it either. -/
theorem foldlM_no_invalid
    (g : (List FetchCall × List Entity) → PopulateOptions →
      Except LoaderError (List FetchCall × List Entity))
    (hg : ∀ acc pop (n f : String), g acc pop ≠ .error (.invalidPropertyName n f))
    (n f : String) :
    ∀ (l : List PopulateOptions) (acc : List FetchCall × List Entity),
      l.foldlM g acc ≠ .error (.invalidPropertyName n f) := by
  intro l
  induction l with
  | nil =>
    intro acc h
    rw [List.foldlM_nil] at h
    exact Except.noConfusion h
  | cons p ps ih =>
    intro acc h
    rw [List.foldlM_cons] at h
    cases hgp : g acc p with
    | error e =>
      rw [hgp] at h
      have h2 : (Except.error e : Except LoaderError (List FetchCall × List Entity)) =
          .error (.invalidPropertyName n f) := h
      injection h2 with h3
      exact hg acc p n f (by rw [hgp, h3])
    | ok acc2 =>
      rw [hgp] at h
      have h2 : ps.foldlM g acc2 = .error (.invalidPropertyName n f) := h
      exact ih acc2 h2

/-- With `validate` explicitly disabled, the orchestrator never raises
`invalid-property-name`, at any recursion fuel. -/
theorem populateAux_novalidate (env : LoaderEnv) (fuel : Nat) :
    ∀ (eN : String) (entities : List Entity) (req : PopReq)
      (options : EntityLoaderOptions), options.validate = some false →
      ∀ (n f : String),
        (populateAux env fuel eN entities req options).1 ≠
          .error (.invalidPropertyName n f) := by
  induction fuel with
  | zero =>
    intro eN entities req options hv n f h
    simp [populateAux] at h
  | succ fuel ih =>
    intro eN entities req options hv n f h
    have hrv : (toRequired (applyDefaults options)).validate = false := by
      simp [toRequired, applyDefaults, hv]
    unfold populateAux at h
    cases hc1 : (entities.length == 0 || reqIsEmpty req) with
    | true =>
      rw [if_pos hc1] at h
      exact Except.noConfusion h
    | false =>
      rw [if_neg (by simp [hc1])] at h
      cases hc2 : entities.any (fun e => !e.tracked) with
      | true =>
        rw [if_pos hc2] at h
        injection h with he
        exact LoaderError.noConfusion he
      | false =>
        rw [if_neg (by simp [hc2])] at h
        dsimp only at h
        cases hnorm : normalizePopulate env.registry eN req
            (applyDefaults options).strategy
            (toRequired (applyDefaults options)).lookup with
        | none =>
          simp [hnorm] at h
        | some normalized =>
          simp only [hnorm, hrv, Bool.false_eq_true, if_false] at h
          split at h
          · rename_i e heq
            injection h with he
            rw [he] at heq
            exact foldlM_no_invalid _
              (by
                intro acc pop n2 f2 hgg
                cases hpf : populateFieldWith env (populateAux env fuel) eN
                    acc.2 pop (toRequired (applyDefaults options)) with
                | error e2 =>
                  rw [hpf] at hgg
                  have h3 : (Except.error e2 :
                      Except LoaderError (List FetchCall × List Entity)) =
                      .error (.invalidPropertyName n2 f2) := hgg
                  injection h3 with h4
                  rw [h4] at hpf
                  exact populateFieldWith_novalidate env _ ih eN acc.2 pop
                    (toRequired (applyDefaults options)) n2 f2 hpf
                | ok r =>
                  rw [hpf] at hgg
                  obtain ⟨fs, es⟩ := r
                  have h3 : (Except.ok (acc.1 ++ fs, es) :
                      Except LoaderError (List FetchCall × List Entity)) =
                      .error (.invalidPropertyName n2 f2) := hgg
                  exact Except.noConfusion h3)
              n f normalized ([], entities) heq
          · exact Except.noConfusion h

/-- C4: with validation enabled (the default), a normalized populate spec
containing a field the entity's metadata does not declare makes `populate` fail
with `invalid-property-name`, naming the first such field; the outcome is
unchanged under arbitrary replacement of the fetch oracles, so the failure
precedes any batched fetch.  With validation explicitly disabled, no
`invalid-property-name` error is ever raised. -/
theorem populate_validation :
    (∀ (env : LoaderEnv) (emFind2 : String → Cond → List Entity)
        (piv2 : Int → List Int) (eN : String) (entities : List Entity)
        (req : PopReq) (options : EntityLoaderOptions)
        (normalized : List PopulateOptions) (bad : PopulateOptions),
      (entities.length == 0 || reqIsEmpty req) = false →
      entities.any (fun e => !e.tracked) = false →
      options.validate.getD true = true →
      normalizePopulate env.registry eN req (applyDefaults options).strategy
        (toRequired (applyDefaults options)).lookup = some normalized →
      normalized.find? (fun p => !canPopulate env.registry eN p.field) =
        some bad →
      EntityLoader.populate env eN entities req options =
        (.error (.invalidPropertyName eN bad.field), applyDefaults options) ∧
      EntityLoader.populate
          { env with emFind := emFind2, pivotOracle := piv2 }
          eN entities req options =
        (.error (.invalidPropertyName eN bad.field), applyDefaults options)) ∧
    (∀ (env : LoaderEnv) (eN : String) (entities : List Entity) (req : PopReq)
        (options : EntityLoaderOptions), options.validate = some false →
      ∀ (n f : String),
        (EntityLoader.populate env eN entities req options).1 ≠
          .error (.invalidPropertyName n f)) := by
  constructor
  · intro env emFind2 piv2 eN entities req options normalized bad h1 h2 hv hn hf
    obtain ⟨k, hk⟩ := populateFuel_pos env.registry req
    constructor
    · unfold EntityLoader.populate
      rw [hk]
      exact populateAux_invalid env k eN entities req options normalized bad
        h1 h2 hv hn hf
    · unfold EntityLoader.populate
      have hk2 : populateFuel
          ({ env with emFind := emFind2, pivotOracle := piv2 } : LoaderEnv).registry
          req = k + 1 := hk
      rw [hk2]
      exact populateAux_invalid _ k eN entities req options normalized bad
        h1 h2 hv hn hf
  · intro env eN entities req options hv n f
    unfold EntityLoader.populate
    exact populateAux_novalidate env _ eN entities req options hv n f

/-- Witness: requesting the undeclared field `bogus` on `U` fails with
`invalid-property-name` naming it, with the defaulted options returned. -/
theorem populate_validation_witness :
    EntityLoader.populate fixEnv "U" [{ pk := 1 }] (.list [popNode "bogus"]) {} =
      (.error (.invalidPropertyName "U" "bogus"), applyDefaults {}) :=
  (populate_validation.1 fixEnv fixEnv.emFind fixEnv.pivotOracle "U" [{ pk := 1 }]
    (.list [popNode "bogus"]) {} [popNode "bogus"] (popNode "bogus")
    rfl rfl rfl rfl rfl).1
